import Mathlib

/-!
# Verification of the SupabaseMirror synchronization core

A shallow embedding, in Lean 4, of the reconciliation engine of the
SupabaseMirror service (a bidirectional Supabase/Google-Sheets sync server):

* `lib/sync-logic.js` — record normalization (`mapSheetsToSupabase`,
  `mapSupabaseToSheets`) and content fingerprinting (`calculateFingerprint`);
* `lib/webhook-middleware.js` — the ingress guard (idempotency keys,
  short-window duplicate suppression, per-source loop breaker);
* `lib/webhook-dispatcher.js` — the single-subscriber registry;
* `index.js` — the loop-check / conflict-resolution decision logic of the
  two webhook handlers.

JavaScript values are modelled by the inductive type `JSVal` (numbers are
restricted to integers, which is sufficient for every property proved here;
`String(n)` on an integer agrees with Lean's `toString : Int → String`).
The behaviour of `Date.parse` and of `Number(string)` is kept abstract in a
`JsEnv` parameter: every theorem below holds for an arbitrary environment,
and witnesses instantiate a concrete one.  Hash digests (MD5) are modelled
by their preimage strings: MD5 is a function, so equal preimages yield equal
digests; where the code relies on distinct inputs having distinct digests
(the ingress dedupe cache) the hash key is modelled by the hashed tuple
itself.
-/

namespace SupabaseMirror

/-! ## JavaScript value model -/

/-- A JavaScript value as it occurs in webhook payloads, sheet rows and
records.  `vobj` carries the stable JSON serialization of an object value. -/
inductive JSVal where
  | vstr (s : String)
  | vnum (n : Int)
  | vbool (b : Bool)
  | vnull
  | vobj (json : String)
deriving DecidableEq

/-- JavaScript truthiness of a value (`if (v)`).  `NaN` does not occur in the
model; the empty string, `0`, `false` and `null` are falsy. -/
def truthy : JSVal → Bool
  | .vstr s => !(s == "")
  | .vnum n => !(n == 0)
  | .vbool b => b
  | .vnull => false
  | .vobj _ => true

/-- ASCII lower-casing of a character (models `toLowerCase` on the ASCII
range, which is all the code relies on). -/
def charLower (c : Char) : Char :=
  if 'A' ≤ c ∧ c ≤ 'Z' then Char.ofNat (c.toNat + 32) else c

/-- `s.toLowerCase()`. -/
def strLower (s : String) : String := ⟨s.data.map charLower⟩

/-- Whitespace characters removed by `String.prototype.trim`. -/
def isWs (c : Char) : Bool := c == ' ' || c == '\t' || c == '\n' || c == '\r'

/-- `s.trim()`. -/
def strTrim (s : String) : String :=
  ⟨((s.data.dropWhile isWs).reverse.dropWhile isWs).reverse⟩

/-- `s.endsWith(suffix)`. -/
def strEndsWith (s suf : String) : Bool := suf.data.isSuffixOf s.data

/-- `s.startsWith(p)`. -/
def strStartsWith (s p : String) : Bool := p.data.isPrefixOf s.data

/-- `s.includes(c)` for a one-character needle. -/
def strContainsChar (s : String) (c : Char) : Bool := s.data.contains c

/-- A hexadecimal digit (the UUID regex is case-insensitive). -/
def isHexDigit (c : Char) : Bool :=
  decide (('0' ≤ c ∧ c ≤ '9') ∨ ('a' ≤ c ∧ c ≤ 'f') ∨ ('A' ≤ c ∧ c ≤ 'F'))

/-- A decimal digit. -/
def isDigitCh (c : Char) : Bool := decide ('0' ≤ c ∧ c ≤ '9')

/-- Consume exactly `n` characters satisfying `p`, returning the rest. -/
def charRun (p : Char → Bool) : Nat → List Char → Option (List Char)
  | 0, cs => some cs
  | _ + 1, [] => none
  | n + 1, c :: cs => if p c then charRun p n cs else none

/-- Consume one expected character. -/
def expectCh (a : Char) : List Char → Option (List Char)
  | c :: cs => if c == a then some cs else none
  | [] => none

/-- `UUID_REGEX.test(s)`:
`/^[0-9a-f]{8}-[0-9a-f]{4}-[0-9a-f]{4}-[0-9a-f]{4}-[0-9a-f]{12}$/i`
(anchored at both ends). -/
def uuidTest (s : String) : Bool :=
  match (((((((((charRun isHexDigit 8 s.data).bind (expectCh '-')).bind
      (charRun isHexDigit 4)).bind (expectCh '-')).bind
      (charRun isHexDigit 4)).bind (expectCh '-')).bind
      (charRun isHexDigit 4)).bind (expectCh '-')).bind
      (charRun isHexDigit 12)) with
  | some [] => true
  | _ => false

/-- `ISO_DATE_REGEX.test(s)`: `/^\d{4}-\d{2}-\d{2}T\d{2}:\d{2}:\d{2}/`
(anchored only at the start: a prefix match). -/
def isoTest (s : String) : Bool :=
  (((((((((((charRun isDigitCh 4 s.data).bind (expectCh '-')).bind
      (charRun isDigitCh 2)).bind (expectCh '-')).bind
      (charRun isDigitCh 2)).bind (expectCh 'T')).bind
      (charRun isDigitCh 2)).bind (expectCh ':')).bind
      (charRun isDigitCh 2)).bind (expectCh ':')).bind
      (charRun isDigitCh 2)).isSome

/-- `String(v)` coercion. -/
def jsString : JSVal → String
  | .vstr s => s
  | .vnum n => toString n
  | .vbool b => if b then "true" else "false"
  | .vnull => "null"
  | .vobj _ => "[object Object]"

/-- The behaviour of the JavaScript runtime primitives the code calls and
whose full semantics are irrelevant to the claims: `Date.parse` (modelled by
whether it returns a non-NaN result) and `Number(string)` (modelled by its
result when finite, `none` for NaN).  Every theorem holds for an arbitrary
environment. -/
structure JsEnv where
  dateParse : String → Bool
  numParse : String → Option Int

/-- `Number(v)` on an arbitrary value (`none` models NaN).  Strings defer to
the environment; `Number(true) = 1`, `Number(false) = 0`, `Number(null) = 0`;
plain objects coerce to NaN. -/
def jsNumber (env : JsEnv) : JSVal → Option Int
  | .vnum n => some n
  | .vbool b => some (if b then 1 else 0)
  | .vnull => some 0
  | .vstr s => env.numParse s
  | .vobj _ => none

/-- A concrete environment used by witnesses: `Date.parse` succeeds exactly
on ISO-shaped strings, `Number(string)` parses nothing. -/
def witnessEnv : JsEnv := ⟨fun s => isoTest s, fun _ => none⟩

/-! ## Association lists (JS objects and `Map`s) -/

/-- `m.get(k)` / property read on a JS object modelled as an association
list in insertion order. -/
def lookupA {α β : Type _} [DecidableEq α] (l : List (α × β)) (k : α) :
    Option β :=
  (l.find? (fun e => decide (e.1 = k))).map (·.2)

/-- `m.set(k, v)` / property write: replace in place when the key exists,
append otherwise (JS insertion-order semantics). -/
def setA {α β : Type _} [DecidableEq α] (l : List (α × β)) (k : α) (v : β) :
    List (α × β) :=
  if (lookupA l k).isSome then
    l.map (fun e => if e.1 = k then (k, v) else e)
  else l ++ [(k, v)]

/-- A record (`{...}` payload object): field name to value, insertion order. -/
abbrev Record := List (String × JSVal)

/-! ## `lib/sync-logic.js` — record normalization -/

/-- `header.trim().toLowerCase()`: the normalized column key. -/
def normKey (h : String) : String := strLower (strTrim h)

/-- `typeof v === 'object'` (true for `null` and for objects). -/
def isObjectTyped : JSVal → Bool
  | .vnull => true
  | .vobj _ => true
  | _ => false

/-- JSON string escaping (quotes and backslashes; sufficient for the string
contents arising here). -/
def escapeJson (s : String) : String :=
  ⟨s.data.foldr (fun c acc =>
      if c == '"' then '\\' :: '"' :: acc
      else if c == '\\' then '\\' :: '\\' :: acc
      else c :: acc) []⟩

/-- `JSON.stringify(v)` on a single value. -/
def jsonStringifyVal : JSVal → String
  | .vnull => "null"
  | .vobj j => j
  | .vstr s => "\"" ++ escapeJson s ++ "\""
  | .vnum n => toString n
  | .vbool b => if b then "true" else "false"

/-- `mapSupabaseToSheets(record, headers)` (sync-logic.js:57-69): map record
fields to the header positions; `undefined` renders as `""`, object-typed
values (including `null`) as their JSON serialization. -/
def mapSupabaseToSheets (record : Record) (headers : List String) :
    List JSVal :=
  if headers.isEmpty then record.map (·.2)
  else headers.map (fun h =>
    match lookupA record h with
    | none => .vstr ""
    | some v => if isObjectTyped v then .vstr (jsonStringifyVal v) else v)

/-- Greedy id recovery (sync-logic.js:81-86): locate the `id` column; if its
value is absent or not UUID-shaped, adopt the first UUID-shaped cell of the
row, else keep the original.  `none` models both `null` and `undefined`
(they are indistinguishable to every later use). -/
def computeRowId (headers : List String) (row : List JSVal) : Option JSVal :=
  let idColIndex := headers.findIdx? (fun h => !(h == "") && normKey h == "id")
  let rowId0 : Option JSVal := idColIndex.bind (fun i => row.get? i)
  let ok := match rowId0 with
    | some v => truthy v && uuidTest (strTrim (jsString v))
    | none => false
  if ok then rowId0
  else
    match row.find? (fun v => truthy v && uuidTest (strTrim (jsString v))) with
    | some v => some v
    | none => rowId0

/-- sync-logic.js:96-98: `""`, `undefined` and any string whose lower-casing
is `"null"` become `null`.  (Note: the code does not trim before the
comparison.) -/
def nullifyEmpty : Option JSVal → JSVal
  | none => .vnull
  | some (.vstr s) => if s == "" || strLower s == "null" then .vnull else .vstr s
  | some v => v

/-- The fixed numeric field set (sync-logic.js:128). -/
def numericFields : List String :=
  ["price", "amount", "quantity", "sort_order", "total_amount"]

/-- Key classifiers used by the type-safety passes. -/
def isIdKey (key : String) : Bool := strEndsWith key "_id" || key == "id"

/-- Timestamp-suffixed or reserved time column. -/
def isTimeKey (key : String) : Bool := strEndsWith key "_at" || key == "timestamp"

/-- Name/title column. -/
def isNameKey (key : String) : Bool := key == "name" || key == "title"

/-- Boolean-flag column. -/
def isBoolFlagKey (key : String) : Bool := strStartsWith key "is_"

/-- UUID validation (sync-logic.js:101-106). -/
def checkUuid (key : String) (v : JSVal) : JSVal :=
  if truthy v && isIdKey key then
    if uuidTest (strTrim (jsString v)) then v else .vnull
  else v

/-- `ISO_DATE_REGEX.test(s) || !isNaN(Date.parse(s))`. -/
def isActuallyADate (env : JsEnv) (s : String) : Bool :=
  isoTest s || env.dateParse s

/-- Timestamp validation (sync-logic.js:109-116). -/
def checkTime (env : JsEnv) (key : String) (v : JSVal) : JSVal :=
  if truthy v && isTimeKey key then
    if isActuallyADate env (strTrim (jsString v)) then v else .vnull
  else v

/-- Name/text validation (sync-logic.js:119-125): names must not look like
UUIDs, ISO dates, or `Date.parse`-able strings containing a colon. -/
def checkName (env : JsEnv) (key : String) (v : JSVal) : JSVal :=
  if truthy v && isNameKey key then
    let strVal := strTrim (jsString v)
    if uuidTest strVal || isoTest strVal ||
        (env.dateParse strVal && strContainsChar strVal ':') then .vnull
    else v
  else v

/-- Numeric validation (sync-logic.js:129-137): coerce, or discard to null. -/
def checkNumeric (env : JsEnv) (key : String) (v : JSVal) : JSVal :=
  if truthy v && numericFields.contains key then
    match jsNumber env v with
    | none => .vnull
    | some n => .vnum n
  else v

/-- Boolean validation (sync-logic.js:140-152). -/
def checkBoolFlag (key : String) (v : JSVal) : JSVal :=
  if isBoolFlagKey key then
    match v with
    | .vstr s =>
      let lv := strTrim (strLower s)
      if lv == "true" || lv == "1" then .vbool true
      else if lv == "false" || lv == "0" then .vbool false
      else .vnull
    | .vbool b => .vbool b
    | _ => .vnull
  else v

/-- The whole per-cell pipeline of the primary mapping (lines 96-152),
applied to the raw cell (`none` = `undefined`). -/
def mapCellValue (env : JsEnv) (key : String) (v0 : Option JSVal) : JSVal :=
  checkBoolFlag key
    (checkNumeric env key
      (checkName env key
        (checkTime env key
          (checkUuid key (nullifyEmpty v0)))))

/-- The primary mapping loop (sync-logic.js:89-155): `forEach` over headers
with index, skipping falsy headers, substituting the recovered row id for
the `id` column, and assigning `record[header] = val`. -/
def primaryMapAux (env : JsEnv) (rowId : Option JSVal) (row : List JSVal) :
    List String → Nat → Record → Record
  | [], _, acc => acc
  | h :: hs, i, acc =>
    let acc' := if h == "" then acc
      else
        let key := normKey h
        let v0 : Option JSVal := if key == "id" then rowId else row.get? i
        setA acc h (mapCellValue env key v0)
    primaryMapAux env rowId row hs (i + 1) acc'

/-- Name-candidate predicate of the smart recovery pass
(sync-logic.js:161-170). -/
def nameCandOk (env : JsEnv) (v : JSVal) : Bool :=
  match v with
  | .vstr s =>
    if s.data.length < 2 then false
    else
      let lv := strTrim (strLower s)
      if lv == "sheets" || lv == "supabase" || lv == "null" ||
          lv == "undefined" || lv == "true" || lv == "false" then false
      else if uuidTest s then false
      else if isoTest s then false
      else if env.dateParse s && strContainsChar s ':' then false
      else if (env.numParse s).isSome then false
      else true
  | _ => false

/-- Smart recovery of `name` (sync-logic.js:160-175). -/
def recoverName (env : JsEnv) (acc : Record) (row : List JSVal) : Record :=
  if truthy ((lookupA acc "name").getD .vnull) then acc
  else
    match row.find? (nameCandOk env) with
    | some c => setA acc "name" c
    | none => acc

/-- Price-candidate predicate (sync-logic.js:179-184). -/
def priceCandOk (env : JsEnv) (v : JSVal) : Bool :=
  match v with
  | .vnull => false
  | .vbool _ => false
  | .vstr s =>
    if s == "" then false
    else if strLower s == "true" || strLower s == "false" then false
    else match env.numParse s with
      | some n => decide (n > 0)
      | none => false
  | v =>
    if strLower (jsString v) == "true" || strLower (jsString v) == "false" then false
    else match jsNumber env v with
      | some n => decide (n > 0)
      | none => false

/-- Smart recovery of `price` (sync-logic.js:178-189): fires when the price
is falsy but not the number `0`; adopts `Number(candidate)`. -/
def recoverPrice (env : JsEnv) (acc : Record) (row : List JSVal) : Record :=
  let p := lookupA acc "price"
  if !(truthy (p.getD .vnull)) && !(p == some (.vnum 0)) then
    match row.find? (priceCandOk env) with
    | some c => setA acc "price" (.vnum ((jsNumber env c).getD 0))
    | none => acc
  else acc

/-- Category-candidate predicate (sync-logic.js:193): the first UUID-shaped
cell that is not (strictly equal to) the primary row id. -/
def catCandOk (rowId : Option JSVal) (v : JSVal) : Bool :=
  truthy v && uuidTest (strTrim (jsString v)) && !(some v == rowId)

/-- Smart recovery of `category_id` (sync-logic.js:192-198). -/
def recoverCategoryId (acc : Record) (row : List JSVal)
    (rowId : Option JSVal) : Record :=
  if truthy ((lookupA acc "category_id").getD .vnull) then acc
  else
    match row.find? (catCandOk rowId) with
    | some c => setA acc "category_id" c
    | none => acc

/-- `mapSheetsToSupabase(row, headers)` (sync-logic.js:78-201). -/
def mapSheetsToSupabase (env : JsEnv) (row : List JSVal)
    (headers : List String) : Record :=
  let rowId := computeRowId headers row
  let base := primaryMapAux env rowId row headers 0 []
  recoverCategoryId (recoverPrice env (recoverName env base row) row) row rowId

/-! ## `lib/sync-logic.js` — content fingerprint -/

/-- The metadata fields always excluded from the fingerprint
(sync-logic.js:214). -/
def metadataFields : List String :=
  ["synced_at", "created_at", "source", "updated_at"]

/-- The normalized-entry computation inside the `keys.sort().forEach` loop of
`calculateFingerprint` (sync-logic.js:216-230): skip metadata fields; coerce
defined non-null values to their canonical string (objects to their stable
JSON serialization); keep `null`; drop `undefined`. -/
def normalizeEntry (r : Record) (k : String) : Option (String × Option String) :=
  if k ∈ metadataFields then none
  else
    match lookupA r k with
    | none => none
    | some .vnull => some (k, none)
    | some (.vobj j) => some (k, some j)
    | some v => some (k, some (jsString v))

/-- The coerced business view of one field, used to state fingerprint
determinism: `none` = `undefined`, `some none` = `null`, `some (some s)` =
the canonical string coercion. -/
def businessView (r : Record) (k : String) : Option (Option String) :=
  match lookupA r k with
  | none => none
  | some .vnull => some none
  | some (.vobj j) => some (some j)
  | some v => some (some (jsString v))

/-- Code-unit lexicographic order on character lists (the default
`Array.prototype.sort` comparator on strings). -/
def lexLe : List Char → List Char → Bool
  | [], _ => true
  | _ :: _, [] => false
  | a :: as, b :: bs => if a < b then true else if a = b then lexLe as bs else false

/-- The string order used by `keys.sort()`. -/
def keyLe (a b : String) : Prop := lexLe a.data b.data = true

instance (a b : String) : Decidable (keyLe a b) :=
  inferInstanceAs (Decidable (lexLe a.data b.data = true))

/-- `keys.sort()`. -/
def sortKeys (l : List String) : List String := List.insertionSort keyLe l

/-- The `normalized` object built by `calculateFingerprint` (in sorted key
order). -/
def normalizeRecord (r : Record) (includeKeys : Option (List String)) :
    List (String × Option String) :=
  (sortKeys (includeKeys.getD (r.map (·.1)))).filterMap (normalizeEntry r)

/-- JSON rendering of one normalized field. -/
def normEntryJson (e : String × Option String) : String :=
  "\"" ++ escapeJson e.1 ++ "\":" ++
    (match e.2 with
     | none => "null"
     | some s => "\"" ++ escapeJson s ++ "\"")

/-- `JSON.stringify(normalized)`. -/
def normJson (l : List (String × Option String)) : String :=
  "\x7b" ++ String.intercalate "," (l.map normEntryJson) ++ "\x7d"

/-- `calculateFingerprint(record, includeKeys)` (sync-logic.js:209-238).  The
MD5 digest is modelled by its preimage `JSON.stringify(normalized)`: MD5 is
a fixed function of that string, so equal preimages give equal digests. -/
def calculateFingerprint (r : Record) (includeKeys : Option (List String)) :
    String :=
  normJson (normalizeRecord r includeKeys)

/-! ## `lib/webhook-middleware.js` — ingress guard

The in-memory caches and the per-source counter, with `Date.now()` passed in
explicitly as each request's arrival time (milliseconds, a `Nat`).  The MD5
dedupe fingerprint over `source:body:bucket` is modelled by that tuple
itself (the code relies on distinct inputs hashing distinctly). -/

/-- The hash input of the burst-coalescing fingerprint. -/
structure DedupKey where
  source : String
  body : String
  bucket : Nat
deriving DecidableEq

/-- One per-source loop-breaker counter (`sourceHitCounters` entry). -/
structure Counter where
  hits : Nat
  firstHitTime : Nat
  pauseUntil : Nat
deriving DecidableEq

/-- The three in-memory stores of the middleware module. -/
structure MwState where
  idem : List (String × Nat)
  fpc : List (DedupKey × Nat)
  counters : List (String × Counter)
deriving DecidableEq

/-- The module-load state: all caches empty. -/
def mwInit : MwState := ⟨[], [], []⟩

/-- How the middleware disposed of one request. -/
inductive MwResult where
  /-- 200 "Idempotent OK" -/
  | idempotentOk
  /-- 200 "Duplicate Suppressed" -/
  | duplicateSuppressed
  /-- 429 "Too Many Requests (Loop Breaker Pause)" -/
  | loopPause
  /-- 429 "Too Many Requests (Loop Breaker Triggered)" -/
  | loopTrip
  /-- `next()`: the request reaches the route handler -/
  | passed
deriving DecidableEq

/-- The HTTP status attached to each disposal (`passed` reaches the handler,
everything else is answered directly by the guard). -/
def mwStatus : MwResult → Nat
  | .idempotentOk => 200
  | .duplicateSuppressed => 200
  | .loopPause => 429
  | .loopTrip => 429
  | .passed => 0

/-- What the guard sees of one inbound request. -/
structure MwRequest where
  idemKey : Option String
  body : String
  now : Nat
deriving DecidableEq

/-- Middleware constants (webhook-middleware.js:258-262). -/
def FINGERPRINT_TTL_MS : Nat := 30 * 1000

/-- 60 s sliding window. -/
def LOOP_WINDOW_MS : Nat := 60 * 1000

/-- Max events before the breaker trips. -/
def LOOP_THRESHOLD : Nat := 10

/-- 90 s pause block. -/
def LOOP_PAUSE_DURATION_MS : Nat := 90 * 1000

/-- 10 min idempotency TTL. -/
def IDEMPOTENCY_TTL_MS : Nat := 10 * 60 * 1000

/-- `cleanupCache` (webhook-middleware.js:264-269): drop entries whose expiry
is strictly in the past. -/
def cleanupCache {α : Type _} (cache : List (α × Nat)) (now : Nat) :
    List (α × Nat) :=
  cache.filter (fun e => !(decide (now > e.2)))

/-- Stages 2-3 of the guard (burst coalescing, then loop breaker),
webhook-middleware.js:289-343. -/
def mwStep2 (source : String) (st : MwState) (req : MwRequest) :
    MwResult × MwState :=
  let now := req.now
  let fpc1 := cleanupCache st.fpc now
  let key : DedupKey := ⟨source, req.body, now / 5000 * 5000⟩
  if (lookupA fpc1 key).isSome then
    (.duplicateSuppressed, { st with fpc := fpc1 })
  else
    let st1 := { st with fpc := setA fpc1 key (now + FINGERPRINT_TTL_MS) }
    let counter := (lookupA st1.counters source).getD ⟨0, now, 0⟩
    if counter.pauseUntil > now then
      (.loopPause, st1)
    else if now - counter.firstHitTime > LOOP_WINDOW_MS then
      (.passed, { st1 with counters := setA st1.counters source ⟨1, now, 0⟩ })
    else
      let c := Counter.mk (counter.hits + 1) counter.firstHitTime counter.pauseUntil
      if c.hits > LOOP_THRESHOLD then
        let c2 := Counter.mk c.hits c.firstHitTime (now + LOOP_PAUSE_DURATION_MS)
        (.loopTrip, { st1 with counters := setA st1.counters source c2 })
      else
        (.passed, { st1 with counters := setA st1.counters source c })

/-- One run of `webhookMiddleware` (webhook-middleware.js:272-343): the
idempotency check, then stages 2-3. -/
def mwStep (source : String) (st : MwState) (req : MwRequest) :
    MwResult × MwState :=
  match req.idemKey with
  | some k =>
    let idem1 := cleanupCache st.idem req.now
    if (lookupA idem1 k).isSome then
      (.idempotentOk, { st with idem := idem1 })
    else
      mwStep2 source { st with idem := setA idem1 k (req.now + IDEMPOTENCY_TTL_MS) } req
  | none => mwStep2 source st req

/-- Process a sequence of requests, collecting the disposals. -/
def mwRun (source : String) (st : MwState) : List MwRequest →
    List MwResult × MwState
  | [] => ([], st)
  | r :: rs =>
    let (res, st') := mwStep source st r
    let (ress, st'') := mwRun source st' rs
    (res :: ress, st'')

/-! ## `lib/webhook-dispatcher.js` — single-subscriber registry -/

/-- `WebhookRegistry.register` (webhook-dispatcher.js:24-32): throws on a
second registration for the same event type (modelled by `Except.error`
carrying the thrown message), otherwise records the handler. -/
def registerHandler {α : Type _} (handlers : List (String × α))
    (eventType : String) (handler : α) : Except String (List (String × α)) :=
  if (lookupA handlers eventType).isSome then
    .error ("Conflict - Multiple listeners registered for event: " ++ eventType)
  else
    .ok (setA handlers eventType handler)

/-- What the callable returned by `dispatch(eventType)` does at request
time. -/
inductive DispatchOutcome (α : Type _) where
  /-- the registered handler is invoked on the request -/
  | invoke (handler : α)
  /-- 404 "Handler not found" -/
  | noHandler
deriving DecidableEq

/-- `WebhookRegistry.dispatch` (webhook-dispatcher.js:37-53): the returned
middleware resolves the handler from the registry state at request time. -/
def dispatchResolve {α : Type _} (handlers : List (String × α))
    (eventType : String) : DispatchOutcome α :=
  match lookupA handlers eventType with
  | some handler => .invoke handler
  | none => .noHandler

/-! ## `index.js` — handler decision logic -/

/-- Outcome of the Supabase-handler loop check and write stage
(index.js:210-332), as a function of the inputs that determine it. -/
structure SupabaseOutcome where
  response : String
  sheetWrite : Bool
  clearedShifted : Bool
deriving DecidableEq

/-- The decision taken by `supabaseHandler` after the fingerprints and the
`shifted:` flag have been read (index.js:210-332): for an event whose record
is tagged `source: "sheets"`, a fingerprint match with no misalignment flag
is a self-echo ("Skipped loop", no Sheets write); a set flag is cleared and
the write proceeds; otherwise INSERT/UPDATE events are written to the
sheet. -/
def supabaseLoopDecision (recordSource : Option String)
    (incomingFp : String) (storedFp : Option String) (isShifted : Bool)
    (eventType : String) : SupabaseOutcome :=
  let doWrite := eventType == "INSERT" || eventType == "UPDATE"
  if recordSource == some "sheets" then
    if some incomingFp == storedFp && !isShifted then
      ⟨"Skipped loop", false, false⟩
    else
      ⟨"OK", doWrite, isShifted⟩
  else
    ⟨"OK", doWrite, false⟩

/-- Outcome of the Sheets-handler deduplication / conflict-resolution /
upsert stage (index.js:425-482). -/
structure SheetsOutcome where
  response : String
  upserted : Bool
  /-- the fingerprint stored after a successful upsert (`none`: the stored
  fingerprint is left unchanged) -/
  storedFp : Option String
deriving DecidableEq

/-- The decision taken by `sheetsHandler` once the incoming fingerprint, the
last-known fingerprint and the counterpart `synced_at` timestamp (epoch
milliseconds; `none` when no record or no `synced_at`) are known
(index.js:425-482): drop duplicates, drop when the Supabase copy is strictly
newer, otherwise upsert and record the new fingerprint. -/
def sheetsSyncDecision (incomingFp : String) (lastFp : Option String)
    (supaSyncedAt : Option Int) (sheetsSyncedAt : Int) : SheetsOutcome :=
  if some incomingFp == lastFp then
    ⟨"Dropped (Duplicate)", false, none⟩
  else
    match supaSyncedAt with
    | some t2 =>
      if t2 > sheetsSyncedAt then
        ⟨"Dropped due to conflict", false, none⟩
      else
        ⟨"OK", true, some incomingFp⟩
    | none => ⟨"OK", true, some incomingFp⟩

/-! ## Helper lemmas on association lists -/

theorem lookupA_nil {α β : Type _} [DecidableEq α] (k : α) :
    lookupA ([] : List (α × β)) k = none := rfl

theorem lookupA_cons {α β : Type _} [DecidableEq α] (a : α) (b : β)
    (l : List (α × β)) (k : α) :
    lookupA ((a, b) :: l) k = if a = k then some b else lookupA l k := by
  by_cases h : a = k <;> simp [lookupA, List.find?, h]

theorem lookupA_eq_none {α β : Type _} [DecidableEq α] {l : List (α × β)}
    {k : α} (h : ∀ p ∈ l, p.1 ≠ k) : lookupA l k = none := by
  simp only [lookupA, Option.map_eq_none']
  exact List.find?_eq_none.mpr (fun p hp => by simpa using h p hp)

theorem lookupA_isSome_mem {α β : Type _} [DecidableEq α] {l : List (α × β)}
    {k : α} {v : β} (h : lookupA l k = some v) : (k, v) ∈ l := by
  simp only [lookupA, Option.map_eq_some'] at h
  obtain ⟨e, he, hev⟩ := h
  have h1 := List.find?_some he
  have h2 := List.mem_of_find?_eq_some he
  simp only [decide_eq_true_eq] at h1
  obtain ⟨e1, e2⟩ := e
  simp only at h1 hev
  subst h1; subst hev; exact h2

theorem mem_keys_of_lookupA {α β : Type _} [DecidableEq α] {l : List (α × β)}
    {k : α} {v : β} (h : lookupA l k = some v) : k ∈ l.map (·.1) := by
  exact List.mem_map.mpr ⟨(k, v), lookupA_isSome_mem h, rfl⟩

theorem lookupA_isSome_of_mem_keys {α β : Type _} [DecidableEq α]
    {l : List (α × β)} {k : α} (h : k ∈ l.map (·.1)) :
    (lookupA l k).isSome := by
  obtain ⟨⟨a, b⟩, hab, hk⟩ := List.mem_map.mp h
  simp only at hk
  subst hk
  simp only [lookupA, Option.isSome_map']
  rw [List.find?_isSome]
  exact ⟨(a, b), hab, by simp⟩

theorem lookupA_filter_none {α β : Type _} [DecidableEq α]
    {l : List (α × β)} {k : α} (p : α × β → Bool)
    (h : lookupA l k = none) : lookupA (l.filter p) k = none := by
  have hall : ∀ e ∈ l, e.1 ≠ k := by
    intro e he hk
    have hs := lookupA_isSome_of_mem_keys (List.mem_map.mpr ⟨e, he, hk⟩)
    rw [h] at hs; simp at hs
  exact lookupA_eq_none (fun e he => hall e (List.mem_of_mem_filter he))

theorem lookupA_append_left {α β : Type _} [DecidableEq α]
    {l₁ : List (α × β)} (l₂ : List (α × β)) {k : α}
    (h : (lookupA l₁ k).isSome) :
    lookupA (l₁ ++ l₂) k = lookupA l₁ k := by
  simp only [lookupA, Option.isSome_map'] at *
  rw [List.find?_append]
  rcases h' : l₁.find? (fun e => decide (e.1 = k)) with _ | e
  · rw [h'] at h; simp at h
  · simp [h']

theorem lookupA_append_right {α β : Type _} [DecidableEq α]
    {l₁ : List (α × β)} (l₂ : List (α × β)) {k : α}
    (h : lookupA l₁ k = none) :
    lookupA (l₁ ++ l₂) k = lookupA l₂ k := by
  simp only [lookupA, Option.map_eq_none'] at h
  simp [lookupA, List.find?_append, h]

theorem setA_of_lookupA_none {α β : Type _} [DecidableEq α]
    {l : List (α × β)} {k : α} (v : β) (h : lookupA l k = none) :
    setA l k v = l ++ [(k, v)] := by
  simp [setA, h]

theorem lookupA_map_replace {α β : Type _} [DecidableEq α]
    {l : List (α × β)} {k : α} (v : β) (h : (lookupA l k).isSome) :
    lookupA (l.map (fun e => if e.1 = k then (k, v) else e)) k = some v := by
  induction l with
  | nil => simp [lookupA] at h
  | cons e es ih =>
    obtain ⟨a, b⟩ := e
    rw [List.map_cons]
    by_cases hak : a = k
    · have hhead : (if ((a, b) : α × β).1 = k then (k, v) else (a, b)) = (k, v) := by
        simp [hak]
      rw [hhead, lookupA_cons, if_pos rfl]
    · have hhead : (if ((a, b) : α × β).1 = k then (k, v) else (a, b)) = (a, b) := by
        simp [hak]
      rw [hhead, lookupA_cons, if_neg hak]
      rw [lookupA_cons, if_neg hak] at h
      exact ih h

theorem lookupA_map_replace_ne {α β : Type _} [DecidableEq α]
    (l : List (α × β)) {k k' : α} (v : β) (hne : k' ≠ k) :
    lookupA (l.map (fun e => if e.1 = k then (k, v) else e)) k' =
      lookupA l k' := by
  induction l with
  | nil => rfl
  | cons e es ih =>
    obtain ⟨a, b⟩ := e
    rw [List.map_cons]
    by_cases hak : a = k
    · have hhead : (if ((a, b) : α × β).1 = k then (k, v) else (a, b)) = (k, v) := by
        simp [hak]
      rw [hhead, lookupA_cons, if_neg (fun h => hne h.symm), ih, lookupA_cons,
        if_neg (fun hh => hne (hh.symm.trans hak))]
    · have hhead : (if ((a, b) : α × β).1 = k then (k, v) else (a, b)) = (a, b) := by
        simp [hak]
      rw [hhead, lookupA_cons, lookupA_cons]
      by_cases hak' : a = k'
      · rw [if_pos hak', if_pos hak']
      · rw [if_neg hak', if_neg hak', ih]

theorem lookupA_setA_self {α β : Type _} [DecidableEq α]
    (l : List (α × β)) (k : α) (v : β) :
    lookupA (setA l k v) k = some v := by
  unfold setA
  split
  · exact lookupA_map_replace v (by assumption)
  · rename_i h
    rw [lookupA_append_right _ (by simpa using h)]
    simp [lookupA_cons]

theorem lookupA_setA_ne {α β : Type _} [DecidableEq α]
    (l : List (α × β)) {k k' : α} (v : β) (hne : k' ≠ k) :
    lookupA (setA l k v) k' = lookupA l k' := by
  unfold setA
  split
  · exact lookupA_map_replace_ne l v hne
  · rcases h' : lookupA l k' with _ | w
    · rw [lookupA_append_right _ h', lookupA_cons, if_neg (fun h => hne h.symm),
        lookupA_nil]
    · rw [lookupA_append_left _ (by simp [h']), h']

/-- Every value of `setA l k v` is a value of `l` or the inserted `v`. -/
theorem setA_values {α β : Type _} [DecidableEq α]
    {l : List (α × β)} {k : α} {v : β} {p : α × β}
    (h : p ∈ setA l k v) : p ∈ l ∨ p.2 = v := by
  unfold setA at h
  split at h
  · rcases List.mem_map.mp h with ⟨e, he, hev⟩
    by_cases hek : e.1 = k
    · rw [if_pos hek] at hev; right; rw [← hev]
    · rw [if_neg hek] at hev; left; rwa [← hev]
  · rcases List.mem_append.mp h with h1 | h1
    · exact Or.inl h1
    · right; simp only [List.mem_singleton] at h1; rw [h1]

/-! ## C2 — Supabase handler: self-echo skip and structural healing -/

/-- **C2.**  For an inbound Supabase webhook event whose record is tagged
`source: "sheets"`: when the incoming fingerprint equals the stored one and
the `shifted:` flag is unset, the handler answers "Skipped loop" and writes
nothing to the sheet; when the flag is set it is cleared and the handler
proceeds (never answering "Skipped loop"), writing the row for
INSERT/UPDATE events even when the fingerprints match. -/
theorem supabase_echo_loop_check (fp : String) (stored : Option String)
    (shifted : Bool) (ty : String) :
    (stored = some fp → shifted = false →
      supabaseLoopDecision (some "sheets") fp stored shifted ty =
        ⟨"Skipped loop", false, false⟩) ∧
    (shifted = true →
      (supabaseLoopDecision (some "sheets") fp stored shifted ty).clearedShifted
          = true ∧
      (supabaseLoopDecision (some "sheets") fp stored shifted ty).response
          = "OK" ∧
      ((ty = "INSERT" ∨ ty = "UPDATE") →
        (supabaseLoopDecision (some "sheets") fp stored shifted ty).sheetWrite
          = true)) := by
  refine ⟨fun h1 h2 => ?_, fun h => ?_⟩
  · subst h1; subst h2; simp [supabaseLoopDecision]
  · subst h
    refine ⟨by simp [supabaseLoopDecision], by simp [supabaseLoopDecision],
      fun hty => ?_⟩
    rcases hty with hty | hty <;> subst hty <;> simp [supabaseLoopDecision]

/-- Witness for C2 at concrete inputs. -/
theorem supabase_echo_loop_check_witness :
    supabaseLoopDecision (some "sheets") "f1" (some "f1") false "UPDATE" =
      ⟨"Skipped loop", false, false⟩ ∧
    (supabaseLoopDecision (some "sheets") "f1" (some "f1") true "UPDATE").sheetWrite
      = true :=
  ⟨(supabase_echo_loop_check "f1" (some "f1") false "UPDATE").1 rfl rfl,
   ((supabase_echo_loop_check "f1" (some "f1") true "UPDATE").2 rfl).2.2
     (Or.inr rfl)⟩

/-! ## C4 — Sheets handler: timestamp conflict resolution -/

/-- **C4.**  For a Sheets webhook event that reaches the conflict-resolution
stage (its fingerprint differs from the last recorded one) while the
structured store holds `synced_at = t2`: the upsert proceeds iff
`t1 ≥ t2` (the code's tolerance is 0 ms, inside the recommended 0-5 s
range); otherwise the event is answered "Dropped due to conflict", no
upsert happens and the stored fingerprint is left unchanged. -/
theorem sheets_conflict_resolution (fp : String) (lastFp : Option String)
    (t1 t2 : Int) (hfp : lastFp ≠ some fp) :
    ((sheetsSyncDecision fp lastFp (some t2) t1).upserted = true ↔ t2 ≤ t1) ∧
    (t1 < t2 → sheetsSyncDecision fp lastFp (some t2) t1 =
      ⟨"Dropped due to conflict", false, none⟩) ∧
    (t2 ≤ t1 → sheetsSyncDecision fp lastFp (some t2) t1 =
      ⟨"OK", true, some fp⟩) := by
  have hfp' : (some fp == lastFp) = false := by
    rw [beq_eq_false_iff_ne]
    exact fun hw => hfp hw.symm
  unfold sheetsSyncDecision
  rw [hfp']
  simp only [Bool.false_eq_true, if_false]
  by_cases hlt : t2 > t1
  · rw [if_pos hlt]
    exact ⟨iff_of_false (by simp) (by omega), fun _ => rfl,
      fun hle => absurd hlt (by omega)⟩
  · rw [if_neg hlt]
    exact ⟨iff_of_true rfl (by omega), fun hc => absurd hc (by omega),
      fun _ => rfl⟩

/-- Witness for C4 at concrete inputs. -/
theorem sheets_conflict_resolution_witness :
    (sheetsSyncDecision "f2" none (some 100) 50 =
      ⟨"Dropped due to conflict", false, none⟩) ∧
    (sheetsSyncDecision "f2" none (some 100) 100 = ⟨"OK", true, some "f2"⟩) :=
  ⟨(sheets_conflict_resolution "f2" none 50 100 (by simp)).2.1 (by omega),
   (sheets_conflict_resolution "f2" none 100 100 (by simp)).2.2 (by omega)⟩

/-! ## C8 — single-subscriber registry -/

/-- **C8.**  `register` raises a conflict error when a handler for the event
class already exists and never yields an updated registry (the first
registration stays in place); the callable produced by `dispatch` resolves
to the registered handler at request time, and reports the distinct
"no handler" outcome when none is registered. -/
theorem registry_single_subscriber {α : Type} (handlers : List (String × α))
    (c : String) (h₁ h₂ : α) (hreg : lookupA handlers c = some h₁) :
    registerHandler handlers c h₂ =
      .error ("Conflict - Multiple listeners registered for event: " ++ c) ∧
    (∀ l', registerHandler handlers c h₂ ≠ .ok l') ∧
    dispatchResolve handlers c = .invoke h₁ ∧
    (∀ c', lookupA handlers c' = none →
      dispatchResolve handlers c' = DispatchOutcome.noHandler) := by
  refine ⟨?_, ?_, ?_, ?_⟩
  · simp [registerHandler, hreg]
  · intro l' hok
    simp [registerHandler, hreg] at hok
  · simp [dispatchResolve, hreg]
  · intro c' hc'
    simp [dispatchResolve, hc']

/-- Witness for C8 at a concrete registry. -/
theorem registry_single_subscriber_witness :
    registerHandler [("supabase", 0)] "supabase" 1 =
      .error "Conflict - Multiple listeners registered for event: supabase" ∧
    dispatchResolve [("supabase", 0)] "supabase" = .invoke 0 ∧
    dispatchResolve ([("supabase", 0)] : List (String × Nat)) "sheets" =
      DispatchOutcome.noHandler := by
  have h := registry_single_subscriber [("supabase", (0 : Nat))] "supabase" 0 1
    (by decide)
  exact ⟨h.1, h.2.2.1, h.2.2.2 "sheets" (by decide)⟩

/-! ## C10 — null / empty handling in the two mapping directions -/

theorem checkUuid_vnull (key : String) : checkUuid key .vnull = .vnull := by
  simp [checkUuid, truthy]

theorem checkTime_vnull (env : JsEnv) (key : String) :
    checkTime env key .vnull = .vnull := by
  simp [checkTime, truthy]

theorem checkName_vnull (env : JsEnv) (key : String) :
    checkName env key .vnull = .vnull := by
  simp [checkName, truthy]

theorem checkNumeric_vnull (env : JsEnv) (key : String) :
    checkNumeric env key .vnull = .vnull := by
  simp [checkNumeric, truthy]

theorem checkBoolFlag_vnull (key : String) :
    checkBoolFlag key .vnull = .vnull := by
  cases hb : isBoolFlagKey key <;> simp [checkBoolFlag, hb]

/-- A cell that the empty/null normalization sends to `null` stays `null`
through the whole type-safety pipeline, whatever the column key. -/
theorem mapCellValue_nullish (env : JsEnv) (key : String) (v0 : Option JSVal)
    (h : nullifyEmpty v0 = .vnull) : mapCellValue env key v0 = .vnull := by
  unfold mapCellValue
  rw [h, checkUuid_vnull, checkTime_vnull, checkName_vnull, checkNumeric_vnull,
    checkBoolFlag_vnull]

/-- Headers not mentioning `h` leave the `h` field of the accumulator
unchanged. -/
theorem primaryMapAux_lookup_skip (env : JsEnv) (rowId : Option JSVal)
    (row : List JSVal) :
    ∀ (hs : List String) (i : Nat) (acc : Record) (h : String), h ∉ hs →
      lookupA (primaryMapAux env rowId row hs i acc) h = lookupA acc h := by
  intro hs
  induction hs with
  | nil => intro i acc h _; rfl
  | cons p ps ih =>
    intro i acc h hmem
    have hph : p ≠ h := fun hp => hmem (by rw [hp]; exact List.mem_cons_self _ _)
    have hh : h ∉ ps := fun hp => hmem (List.mem_cons_of_mem _ hp)
    unfold primaryMapAux
    rcases hp0 : (p == "") with _ | _
    · simp only [Bool.false_eq_true, if_false]
      rw [ih _ _ h hh, lookupA_setA_ne _ _ (fun he => hph he.symm)]
    · simp only [if_true]
      exact ih _ _ h hh

/-- Unfolding equation for one step of the primary mapping loop. -/
theorem primaryMapAux_cons (env : JsEnv) (rowId : Option JSVal)
    (row : List JSVal) (h : String) (hs : List String) (i : Nat)
    (acc : Record) :
    primaryMapAux env rowId row (h :: hs) i acc =
      primaryMapAux env rowId row hs (i + 1)
        (if h == "" then acc
         else setA acc h (mapCellValue env (normKey h)
           (if normKey h == "id" then rowId else row.get? i))) := rfl

/-- The field of the last occurrence of a (non-empty, non-id) header is the
pipeline value of the cell at that header's position. -/
theorem primaryMapAux_lookup_at (env : JsEnv) (rowId : Option JSVal)
    (row : List JSVal) (h : String) (post : List String)
    (hne : h ≠ "") (hkey : normKey h ≠ "id") (hpost : h ∉ post) :
    ∀ (pre : List String) (i : Nat) (acc : Record),
      lookupA (primaryMapAux env rowId row (pre ++ h :: post) i acc) h =
        some (mapCellValue env (normKey h) (row.get? (i + pre.length))) := by
  intro pre
  induction pre with
  | nil =>
    intro i acc
    simp only [List.nil_append]
    rw [primaryMapAux_cons,
      show (h == "") = false from beq_eq_false_iff_ne.mpr hne,
      show (normKey h == "id") = false from beq_eq_false_iff_ne.mpr hkey]
    simp only [Bool.false_eq_true, if_false]
    rw [primaryMapAux_lookup_skip env rowId row post _ _ h hpost,
      lookupA_setA_self]
    simp
  | cons p ps ih =>
    intro i acc
    simp only [List.cons_append]
    rw [primaryMapAux_cons, ih (i + 1)]
    have harith : i + 1 + ps.length = i + (p :: ps).length := by
      simp only [List.length_cons]; omega
    rw [harith]

/-- The smart-recovery passes never touch fields other than `name`, `price`
and `category_id`. -/
theorem recovery_lookup_ne (env : JsEnv) (acc : Record) (row : List JSVal)
    (rowId : Option JSVal) (h : String) (hn : h ≠ "name") (hp : h ≠ "price")
    (hc : h ≠ "category_id") :
    lookupA (recoverCategoryId (recoverPrice env (recoverName env acc row) row)
        row rowId) h = lookupA acc h := by
  have h1 : ∀ a : Record, lookupA (recoverName env a row) h = lookupA a h := by
    intro a
    unfold recoverName
    repeat' split
    all_goals first | rfl | exact lookupA_setA_ne _ _ hn
  have h2 : ∀ a : Record, lookupA (recoverPrice env a row) h = lookupA a h := by
    intro a
    rw [show recoverPrice env a row =
        (if !(truthy ((lookupA a "price").getD .vnull)) &&
            !((lookupA a "price") == some (.vnum 0)) then
          match row.find? (priceCandOk env) with
          | some c => setA a "price" (.vnum ((jsNumber env c).getD 0))
          | none => a
        else a) from rfl]
    repeat' split
    all_goals first | rfl | exact lookupA_setA_ne _ _ hp
  have h3 : ∀ a : Record, lookupA (recoverCategoryId a row rowId) h =
      lookupA a h := by
    intro a
    unfold recoverCategoryId
    repeat' split
    all_goals first | rfl | exact lookupA_setA_ne _ _ hc
  rw [h3, h2, h1]

/-- **C10 (amended).**  `mapSupabaseToSheets` renders a field present with
value `null` as the string `"null"` (its JSON serialization) and an absent
(`undefined`) field as the empty string — but a present empty-string value
also renders as the empty string, so an empty cell does not imply absence.
Conversely `mapSheetsToSupabase` maps an empty, `undefined`, or
case-insensitively-`"null"` cell (matched *without* trimming, unlike the
claim's wording) to the `null` value, at every column that is not the `id`
column and is not a recovery-targeted field (`name`/`price`/`category_id`,
whose null can be overwritten by the recovery pass). -/
theorem null_value_handling (env : JsEnv) :
    (∀ (record : Record) (headers : List String) (i : Nat) (h : String),
      headers ≠ [] → headers.get? i = some h →
      ((lookupA record h = some .vnull →
        (mapSupabaseToSheets record headers).get? i = some (.vstr "null")) ∧
       (lookupA record h = none →
        (mapSupabaseToSheets record headers).get? i = some (.vstr "")) ∧
       (lookupA record h = some (.vstr "") →
        (mapSupabaseToSheets record headers).get? i = some (.vstr "")))) ∧
    (∀ (row : List JSVal) (pre post : List String) (h : String),
      h ≠ "" → normKey h ≠ "id" →
      h ≠ "name" → h ≠ "price" → h ≠ "category_id" → h ∉ post →
      (row.get? pre.length = none ∨
        ∃ s, row.get? pre.length = some (.vstr s) ∧
          (s = "" ∨ strLower s = "null")) →
      lookupA (mapSheetsToSupabase env row (pre ++ h :: post)) h =
        some .vnull) := by
  constructor
  · intro record headers i h hne hget
    have hemp : headers.isEmpty = false := by
      cases headers with
      | nil => exact absurd rfl hne
      | cons a as => rfl
    have hmap : (mapSupabaseToSheets record headers).get? i =
        (headers.get? i).map (fun h =>
          match lookupA record h with
          | none => JSVal.vstr ""
          | some v => if isObjectTyped v then .vstr (jsonStringifyVal v) else v) := by
      unfold mapSupabaseToSheets
      rw [hemp]
      simp only [Bool.false_eq_true, if_false, List.get?_map]
    refine ⟨fun hv => ?_, fun hv => ?_, fun hv => ?_⟩ <;>
      rw [hmap, hget] <;> simp [hv, isObjectTyped, jsonStringifyVal]
  · intro row pre post h hne hkey hn hp hc hpost hcell
    unfold mapSheetsToSupabase
    rw [recovery_lookup_ne env _ row _ h hn hp hc,
      primaryMapAux_lookup_at env _ row h post hne hkey hpost pre 0 []]
    simp only [Nat.zero_add]
    have hnull : nullifyEmpty (row.get? pre.length) = .vnull := by
      rcases hcell with hcell | ⟨s, hs, hdisj⟩
      · rw [hcell]; rfl
      · rw [hs]
        rcases hdisj with hd | hd <;> simp [nullifyEmpty, hd]
    rw [mapCellValue_nullish env _ _ hnull]

/-- C10 counterexample against the claim as stated: a *present* empty-string
field also renders as the empty string (not only absent fields), and the
cell `" null "` — whose trimmed string equals `"null"` case-insensitively —
is *not* mapped to the null value, because the code compares without
trimming. -/
theorem null_value_handling_counterexample :
    mapSupabaseToSheets [("a", .vstr "")] ["a"] = [.vstr ""] ∧
    strTrim " null " = "null" ∧
    lookupA (mapSheetsToSupabase witnessEnv [.vstr " null "] ["notes"]) "notes" =
      some (.vstr " null ") := by decide

/-- Witness for the amended C10 at concrete inputs. -/
theorem null_value_handling_witness :
    (mapSupabaseToSheets [("a", JSVal.vnull)] ["a"]).get? 0 =
      some (.vstr "null") ∧
    lookupA (mapSheetsToSupabase witnessEnv [.vstr "NULL"] ["notes"]) "notes" =
      some .vnull :=
  ⟨((null_value_handling witnessEnv).1 [("a", JSVal.vnull)] ["a"] 0 "a"
      (by simp) rfl).1 rfl,
   (null_value_handling witnessEnv).2 [.vstr "NULL"] [] [] "notes"
      (by decide) (by decide) (by decide) (by decide) (by decide)
      (by simp)
      (Or.inr ⟨"NULL", rfl, Or.inr (by decide)⟩)⟩

/-! ## C6 — burst coalescing of byte-identical payloads -/

/-- Two arrivals in the same 5-second bucket are at most
`FINGERPRINT_TTL_MS` apart (30 s), so the dedupe entry of the earlier one
has not expired for the later one. -/
theorem same_bucket_close {t1 t : Nat} (hle : t1 ≤ t)
    (hbk : t / 5000 = t1 / 5000) : t ≤ t1 + FINGERPRINT_TTL_MS := by
  have e1 := Nat.div_add_mod t 5000
  have e2 := Nat.div_add_mod t1 5000
  have m1 : t % 5000 < 5000 := Nat.mod_lt _ (by omega)
  unfold FINGERPRINT_TTL_MS
  omega

/-- Behaviour of the guard on the very first request of a fresh source with
no idempotency key: it reaches the handler and primes all three stores. -/
theorem mwStep_first (source : String) (r : MwRequest)
    (h : r.idemKey = none) :
    mwStep source mwInit r =
      (.passed,
       ⟨[], [(⟨source, r.body, r.now / 5000 * 5000⟩, r.now + FINGERPRINT_TTL_MS)],
        [(source, ⟨1, r.now, 0⟩)]⟩) := by
  simp only [mwStep, h]
  simp [mwStep2, mwInit, cleanupCache, lookupA, setA, Nat.sub_self,
    LOOP_WINDOW_MS, LOOP_THRESHOLD]

/-- **C6 (amended).**  Byte-identical payloads from one origin, without
idempotency keys, all falling in the *same 5-second bucket*
(`Math.floor(now/5000)` equal): from a fresh guard the first is processed
and every other one is suppressed as a duplicate delivery — so of 50 such
payloads at most 1 is processed and at least 49 are suppressed.  (The
claim's "within a 5-second span" is corrected to "within one 5-second
bucket": a span may straddle a bucket boundary, see the counterexample.) -/
theorem duplicate_suppression (source : String) (r1 : MwRequest)
    (rs : List MwRequest) (h1 : r1.idemKey = none)
    (hall : ∀ r ∈ rs, r.idemKey = none ∧ r.body = r1.body ∧ r1.now ≤ r.now ∧
      r.now / 5000 = r1.now / 5000) :
    (mwRun source mwInit (r1 :: rs)).1 =
      .passed :: List.replicate rs.length .duplicateSuppressed := by
  have hstep1 := mwStep_first source r1 h1
  set st1 : MwState :=
    ⟨[], [(⟨source, r1.body, r1.now / 5000 * 5000⟩, r1.now + FINGERPRINT_TTL_MS)],
     [(source, ⟨1, r1.now, 0⟩)]⟩ with hst1
  have hsteps : ∀ (l : List MwRequest),
      (∀ r ∈ l, r.idemKey = none ∧ r.body = r1.body ∧ r1.now ≤ r.now ∧
        r.now / 5000 = r1.now / 5000) →
      mwRun source st1 l = (List.replicate l.length .duplicateSuppressed, st1) := by
    intro l
    induction l with
    | nil => intro _; rfl
    | cons r l ih =>
      intro hl
      obtain ⟨hik, hb, hle, hbk⟩ := hl r (List.mem_cons_self _ _)
      have hstep : mwStep source st1 r = (.duplicateSuppressed, st1) := by
        have hnot : ¬ (r1.now + FINGERPRINT_TTL_MS < r.now) := by
          have := same_bucket_close hle hbk
          omega
        have hcl : cleanupCache st1.fpc r.now = st1.fpc := by
          simp [cleanupCache, hst1, List.filter, hnot]
        have hkeyeq : (⟨source, r.body, r.now / 5000 * 5000⟩ : DedupKey) =
            ⟨source, r1.body, r1.now / 5000 * 5000⟩ := by rw [hb, hbk]
        simp only [mwStep, hik]
        simp only [mwStep2, hcl, hkeyeq]
        simp [hst1, lookupA, List.find?]
      simp only [mwRun, hstep]
      rw [ih (fun r hr => hl r (List.mem_cons_of_mem _ hr))]
      simp [List.replicate]
  simp only [mwRun, hstep1]
  rw [hsteps rs hall]

/-- C6 counterexample against the claim as stated: 50 byte-identical
payloads from one origin within a 5-second span (25 at t = 4999 ms, 25 at
t = 5001 ms, 2 ms apart), from a fresh guard, yield **2** processed events,
because the span straddles a 5-second bucket boundary — contradicting
"at most 1 passed through". -/
theorem duplicate_suppression_counterexample :
    ¬ ((mwRun "sheets" mwInit
        (List.replicate 25 ⟨none, "p", 4999⟩ ++
         List.replicate 25 ⟨none, "p", 5001⟩)).1.count .passed ≤ 1) := by
  decide

/-- Witness for the amended C6: 50 byte-identical payloads in one bucket,
exactly 1 processed and 49 suppressed. -/
theorem duplicate_suppression_witness :
    (mwRun "sheets" mwInit
      (⟨none, "p", 5000⟩ :: List.replicate 49 ⟨none, "p", 5003⟩)).1 =
      .passed :: List.replicate 49 .duplicateSuppressed :=
  duplicate_suppression "sheets" ⟨none, "p", 5000⟩
    (List.replicate 49 ⟨none, "p", 5003⟩) rfl (by decide)

/-! ## C7 — idempotency-key replay -/

/-- **C7.**  From a fresh guard, a first request carrying idempotency key
`k` is processed; every later request carrying `k` within the key's TTL is
short-circuited with the "already processed" response before any business
logic, whatever its payload — e.g. 5 deliveries of one key yield exactly 1
processed and 4 suppressed. -/
theorem idempotency_replay (source k : String) (r1 : MwRequest)
    (rs : List MwRequest) (h1 : r1.idemKey = some k)
    (hall : ∀ r ∈ rs, r.idemKey = some k ∧ r1.now ≤ r.now ∧
      r.now ≤ r1.now + IDEMPOTENCY_TTL_MS) :
    (mwRun source mwInit (r1 :: rs)).1 =
      .passed :: List.replicate rs.length .idempotentOk := by
  have hstep1 : mwStep source mwInit r1 =
      (.passed,
       ⟨[(k, r1.now + IDEMPOTENCY_TTL_MS)],
        [(⟨source, r1.body, r1.now / 5000 * 5000⟩, r1.now + FINGERPRINT_TTL_MS)],
        [(source, ⟨1, r1.now, 0⟩)]⟩) := by
    simp only [mwStep, h1]
    simp [mwStep2, mwInit, cleanupCache, lookupA, setA, Nat.sub_self,
      LOOP_WINDOW_MS, LOOP_THRESHOLD]
  set st1 : MwState :=
    ⟨[(k, r1.now + IDEMPOTENCY_TTL_MS)],
     [(⟨source, r1.body, r1.now / 5000 * 5000⟩, r1.now + FINGERPRINT_TTL_MS)],
     [(source, ⟨1, r1.now, 0⟩)]⟩ with hst1
  have hsteps : ∀ (l : List MwRequest),
      (∀ r ∈ l, r.idemKey = some k ∧ r1.now ≤ r.now ∧
        r.now ≤ r1.now + IDEMPOTENCY_TTL_MS) →
      mwRun source st1 l = (List.replicate l.length .idempotentOk, st1) := by
    intro l
    induction l with
    | nil => intro _; rfl
    | cons r l ih =>
      intro hl
      obtain ⟨hik, hle, hub⟩ := hl r (List.mem_cons_self _ _)
      have hstep : mwStep source st1 r = (.idempotentOk, st1) := by
        have hnot : ¬ (r1.now + IDEMPOTENCY_TTL_MS < r.now) := by omega
        have hcl : cleanupCache st1.idem r.now = st1.idem := by
          simp [cleanupCache, hst1, List.filter, hnot]
        simp only [mwStep, hik, hcl]
        simp [hst1, lookupA, List.find?]
      simp only [mwRun, hstep]
      rw [ih (fun r hr => hl r (List.mem_cons_of_mem _ hr))]
      simp [List.replicate]
  simp only [mwRun, hstep1]
  rw [hsteps rs hall]

/-- Witness for C7: 5 deliveries of one idempotency key with varying
payloads, exactly 1 processed and 4 suppressed. -/
theorem idempotency_replay_witness :
    (mwRun "sheets" mwInit
      (⟨some "k1", "a", 100⟩ ::
        [⟨some "k1", "b", 200⟩, ⟨some "k1", "c", 300⟩,
         ⟨some "k1", "d", 400⟩, ⟨some "k1", "e", 500⟩])).1 =
      .passed :: List.replicate 4 .idempotentOk :=
  idempotency_replay "sheets" "k1" ⟨some "k1", "a", 100⟩
    [⟨some "k1", "b", 200⟩, ⟨some "k1", "c", 300⟩,
     ⟨some "k1", "d", 400⟩, ⟨some "k1", "e", 500⟩] rfl (by decide)

/-! ## C5 — loop breaker -/

/-- The payload bodies present in the dedupe cache. -/
def fpcBodies (st : MwState) : List String := st.fpc.map (fun e => e.1.body)

theorem lookupA_fpc_fresh {st : MwState} {b : String}
    (h : b ∉ fpcBodies st) (source : String) (bucket : Nat) :
    lookupA st.fpc ⟨source, b, bucket⟩ = none := by
  refine lookupA_eq_none (fun p hp hk => h ?_)
  exact List.mem_map.mpr ⟨p, hp, by rw [hk]⟩

theorem mem_fpcBodies_cleanup {st : MwState} {b : String} {now : Nat}
    (h : b ∈ (cleanupCache st.fpc now).map (fun e => e.1.body)) :
    b ∈ fpcBodies st := by
  rcases List.mem_map.mp h with ⟨p, hp, he⟩
  exact List.mem_map.mpr ⟨p, List.mem_of_mem_filter hp, he⟩

/-- With no idempotency key the guard goes straight to stage 2. -/
theorem mwStep_no_idem (source : String) (st : MwState) (r : MwRequest)
    (hik : r.idemKey = none) : mwStep source st r = mwStep2 source st r := by
  simp only [mwStep, hik]

/-- Stage 2 on a fresh payload, counter under the window and under the
threshold: the request passes, the counter increments. -/
theorem mwStep2_pass (source : String) (st : MwState) (r : MwRequest)
    (hb : lookupA (cleanupCache st.fpc r.now)
      ⟨source, r.body, r.now / 5000 * 5000⟩ = none)
    (c : Counter) (hc : lookupA st.counters source = some c)
    (hp : ¬ (c.pauseUntil > r.now))
    (hw : ¬ (r.now - c.firstHitTime > LOOP_WINDOW_MS))
    (hth : ¬ (c.hits + 1 > LOOP_THRESHOLD)) :
    mwStep2 source st r =
      (.passed,
       ⟨st.idem,
        setA (cleanupCache st.fpc r.now) ⟨source, r.body, r.now / 5000 * 5000⟩
          (r.now + FINGERPRINT_TTL_MS),
        setA st.counters source ⟨c.hits + 1, c.firstHitTime, c.pauseUntil⟩⟩) := by
  simp only [mwStep2, hb, hc, Option.isSome_none, Bool.false_eq_true, if_false,
    Option.getD_some]
  rw [if_neg hp, if_neg hw, if_neg hth]

/-- Stage 2 on a fresh payload when the incremented counter crosses the
threshold: the breaker trips and the pause timer is armed. -/
theorem mwStep2_trip (source : String) (st : MwState) (r : MwRequest)
    (hb : lookupA (cleanupCache st.fpc r.now)
      ⟨source, r.body, r.now / 5000 * 5000⟩ = none)
    (c : Counter) (hc : lookupA st.counters source = some c)
    (hp : ¬ (c.pauseUntil > r.now))
    (hw : ¬ (r.now - c.firstHitTime > LOOP_WINDOW_MS))
    (hth : c.hits + 1 > LOOP_THRESHOLD) :
    mwStep2 source st r =
      (.loopTrip,
       ⟨st.idem,
        setA (cleanupCache st.fpc r.now) ⟨source, r.body, r.now / 5000 * 5000⟩
          (r.now + FINGERPRINT_TTL_MS),
        setA st.counters source
          ⟨c.hits + 1, c.firstHitTime, r.now + LOOP_PAUSE_DURATION_MS⟩⟩) := by
  simp only [mwStep2, hb, hc, Option.isSome_none, Bool.false_eq_true, if_false,
    Option.getD_some]
  rw [if_neg hp, if_neg hw, if_pos hth]

/-- Stage 2 on a fresh payload while the pause timer is armed: rejected with
the loop-breaker pause, counter untouched (but the payload is still recorded
in the dedupe cache). -/
theorem mwStep2_pause (source : String) (st : MwState) (r : MwRequest)
    (hb : lookupA (cleanupCache st.fpc r.now)
      ⟨source, r.body, r.now / 5000 * 5000⟩ = none)
    (c : Counter) (hc : lookupA st.counters source = some c)
    (hp : c.pauseUntil > r.now) :
    mwStep2 source st r =
      (.loopPause,
       ⟨st.idem,
        setA (cleanupCache st.fpc r.now) ⟨source, r.body, r.now / 5000 * 5000⟩
          (r.now + FINGERPRINT_TTL_MS),
        st.counters⟩) := by
  simp only [mwStep2, hb, hc, Option.isSome_none, Bool.false_eq_true, if_false,
    Option.getD_some]
  rw [if_pos hp]

/-- Stage 2 on a fresh payload once the window has elapsed (and any pause
expired): the counter resets to 1 and the request passes. -/
theorem mwStep2_reset (source : String) (st : MwState) (r : MwRequest)
    (hb : lookupA (cleanupCache st.fpc r.now)
      ⟨source, r.body, r.now / 5000 * 5000⟩ = none)
    (c : Counter) (hc : lookupA st.counters source = some c)
    (hp : ¬ (c.pauseUntil > r.now))
    (hw : r.now - c.firstHitTime > LOOP_WINDOW_MS) :
    mwStep2 source st r =
      (.passed,
       ⟨st.idem,
        setA (cleanupCache st.fpc r.now) ⟨source, r.body, r.now / 5000 * 5000⟩
          (r.now + FINGERPRINT_TTL_MS),
        setA st.counters source ⟨1, r.now, 0⟩⟩) := by
  simp only [mwStep2, hb, hc, Option.isSome_none, Bool.false_eq_true, if_false,
    Option.getD_some]
  rw [if_neg hp, if_pos hw]

theorem mwRun_append (source : String) (st : MwState) (xs ys : List MwRequest) :
    mwRun source st (xs ++ ys) =
      ((mwRun source st xs).1 ++ (mwRun source (mwRun source st xs).2 ys).1,
       (mwRun source (mwRun source st xs).2 ys).2) := by
  induction xs generalizing st with
  | nil => simp [mwRun]
  | cons x xs ih =>
    simp only [List.cons_append, mwRun, List.append_eq]
    rw [ih]

/-- A run of fresh, unique, in-window events under the threshold: every one
passes, the counter accumulates, the idempotency cache is untouched, and the
dedupe cache only ever holds initial or just-seen bodies. -/
theorem mwRun_passes (source : String) :
    ∀ (rs : List MwRequest) (st : MwState) (i t1 : Nat) (B : List String),
      (∀ r ∈ rs, r.idemKey = none) →
      (∀ r ∈ rs, r.now ≤ t1 + LOOP_WINDOW_MS) →
      ((rs.map (·.body)).Nodup) →
      (∀ r ∈ rs, r.body ∉ B) →
      (∀ b ∈ fpcBodies st, b ∈ B) →
      lookupA st.counters source = some ⟨i, t1, 0⟩ →
      i + rs.length ≤ LOOP_THRESHOLD →
      (mwRun source st rs).1 = List.replicate rs.length .passed ∧
      (mwRun source st rs).2.idem = st.idem ∧
      lookupA (mwRun source st rs).2.counters source =
        some ⟨i + rs.length, t1, 0⟩ ∧
      (∀ b ∈ fpcBodies (mwRun source st rs).2, b ∈ B ∨ b ∈ rs.map (·.body)) := by
  intro rs
  induction rs with
  | nil =>
    intro st i t1 B _ _ _ _ hB hc _
    exact ⟨rfl, rfl, by simpa using hc, fun b hb => Or.inl (hB b hb)⟩
  | cons r rs ih =>
    intro st i t1 B hik hwin hnd hfresh hB hc hth
    have hbB : r.body ∉ B := hfresh r (List.mem_cons_self _ _)
    have hbodyfresh : lookupA (cleanupCache st.fpc r.now)
        ⟨source, r.body, r.now / 5000 * 5000⟩ = none :=
      lookupA_filter_none _
        (lookupA_fpc_fresh (fun hm => hbB (hB _ hm)) source _)
    have hwr : r.now ≤ t1 + LOOP_WINDOW_MS := hwin r (List.mem_cons_self _ _)
    have hstep := mwStep2_pass source st r hbodyfresh ⟨i, t1, 0⟩ hc
      (by simp) (by simp only [Counter.firstHitTime]; omega)
      (by
        simp only [Counter.hits, LOOP_THRESHOLD] at *
        have := hth
        simp only [List.length_cons] at this
        omega)
    set st' : MwState :=
      ⟨st.idem,
       setA (cleanupCache st.fpc r.now) ⟨source, r.body, r.now / 5000 * 5000⟩
         (r.now + FINGERPRINT_TTL_MS),
       setA st.counters source ⟨i + 1, t1, 0⟩⟩ with hst'
    have hheadnin : r.body ∉ rs.map (·.body) := (List.nodup_cons.mp hnd).1
    have hB' : ∀ b ∈ fpcBodies st', b ∈ r.body :: B := by
      intro b hb
      rw [hst'] at hb
      unfold fpcBodies at hb
      simp only at hb
      rw [setA_of_lookupA_none _ hbodyfresh, List.map_append] at hb
      rcases List.mem_append.mp hb with hb | hb
      · exact List.mem_cons_of_mem _ (hB b (mem_fpcBodies_cleanup hb))
      · simp only [List.map_cons, List.map_nil, List.mem_singleton] at hb
        rw [hb]; exact List.mem_cons_self _ _
    have hrec := ih st' (i + 1) t1 (r.body :: B)
      (fun q hq => hik q (List.mem_cons_of_mem _ hq))
      (fun q hq => hwin q (List.mem_cons_of_mem _ hq))
      (List.nodup_cons.mp hnd).2
      (by
        intro q hq hmem
        rcases List.mem_cons.mp hmem with hh | hh
        · exact hheadnin (hh ▸ List.mem_map.mpr ⟨q, hq, rfl⟩)
        · exact hfresh q (List.mem_cons_of_mem _ hq) hh)
      hB'
      (by rw [hst']; exact lookupA_setA_self _ _ _)
      (by simp only [List.length_cons] at hth; omega)
    have hrun : mwRun source st (r :: rs) =
        ((.passed) :: (mwRun source st' rs).1, (mwRun source st' rs).2) := by
      simp only [mwRun, mwStep_no_idem source st r (hik r (List.mem_cons_self _ _)),
        hstep]
    rw [hrun]
    obtain ⟨hres, hidem, hcnt, hbod⟩ := hrec
    refine ⟨?_, ?_, ?_, ?_⟩
    · simp [hres, List.replicate]
    · rw [hidem, hst']
    · rw [hcnt]
      have : i + 1 + rs.length = i + (r :: rs).length := by
        simp only [List.length_cons]; omega
      rw [this]
    · intro b hb
      rcases hbod b hb with hbb | hbb
      · rcases List.mem_cons.mp hbb with hh | hh
        · right; rw [hh]; exact List.mem_map.mpr ⟨r, List.mem_cons_self _ _, rfl⟩
        · left; exact hh
      · right
        simp only [List.map_cons]
        exact List.mem_cons_of_mem _ hbb

/-- A run of fresh, unique events while the pause timer is armed: every one
is rejected with the loop-breaker pause and the counter map is untouched. -/
theorem mwRun_pauses (source : String) :
    ∀ (rs : List MwRequest) (st : MwState) (c : Counter) (B : List String),
      (∀ r ∈ rs, r.idemKey = none) →
      (∀ r ∈ rs, r.now < c.pauseUntil) →
      ((rs.map (·.body)).Nodup) →
      (∀ r ∈ rs, r.body ∉ B) →
      (∀ b ∈ fpcBodies st, b ∈ B) →
      lookupA st.counters source = some c →
      (mwRun source st rs).1 = List.replicate rs.length .loopPause ∧
      (mwRun source st rs).2.idem = st.idem ∧
      (mwRun source st rs).2.counters = st.counters ∧
      (∀ b ∈ fpcBodies (mwRun source st rs).2, b ∈ B ∨ b ∈ rs.map (·.body)) := by
  intro rs
  induction rs with
  | nil =>
    intro st c B _ _ _ _ hB hc
    exact ⟨rfl, rfl, rfl, fun b hb => Or.inl (hB b hb)⟩
  | cons r rs ih =>
    intro st c B hik hpause hnd hfresh hB hc
    have hbB : r.body ∉ B := hfresh r (List.mem_cons_self _ _)
    have hbodyfresh : lookupA (cleanupCache st.fpc r.now)
        ⟨source, r.body, r.now / 5000 * 5000⟩ = none :=
      lookupA_filter_none _
        (lookupA_fpc_fresh (fun hm => hbB (hB _ hm)) source _)
    have hstep := mwStep2_pause source st r hbodyfresh c hc
      (hpause r (List.mem_cons_self _ _))
    set st' : MwState :=
      ⟨st.idem,
       setA (cleanupCache st.fpc r.now) ⟨source, r.body, r.now / 5000 * 5000⟩
         (r.now + FINGERPRINT_TTL_MS),
       st.counters⟩ with hst'
    have hheadnin : r.body ∉ rs.map (·.body) := (List.nodup_cons.mp hnd).1
    have hB' : ∀ b ∈ fpcBodies st', b ∈ r.body :: B := by
      intro b hb
      rw [hst'] at hb
      unfold fpcBodies at hb
      simp only at hb
      rw [setA_of_lookupA_none _ hbodyfresh, List.map_append] at hb
      rcases List.mem_append.mp hb with hb | hb
      · exact List.mem_cons_of_mem _ (hB b (mem_fpcBodies_cleanup hb))
      · simp only [List.map_cons, List.map_nil, List.mem_singleton] at hb
        rw [hb]; exact List.mem_cons_self _ _
    have hrec := ih st' c (r.body :: B)
      (fun q hq => hik q (List.mem_cons_of_mem _ hq))
      (fun q hq => hpause q (List.mem_cons_of_mem _ hq))
      (List.nodup_cons.mp hnd).2
      (by
        intro q hq hmem
        rcases List.mem_cons.mp hmem with hh | hh
        · exact hheadnin (hh ▸ List.mem_map.mpr ⟨q, hq, rfl⟩)
        · exact hfresh q (List.mem_cons_of_mem _ hq) hh)
      hB'
      (by rw [hst']; exact hc)
    have hrun : mwRun source st (r :: rs) =
        ((.loopPause) :: (mwRun source st' rs).1, (mwRun source st' rs).2) := by
      simp only [mwRun, mwStep_no_idem source st r (hik r (List.mem_cons_self _ _)),
        hstep]
    rw [hrun]
    obtain ⟨hres, hidem, hcnt, hbod⟩ := hrec
    refine ⟨?_, ?_, ?_, ?_⟩
    · simp [hres, List.replicate]
    · rw [hidem, hst']
    · rw [hcnt, hst']
    · intro b hb
      rcases hbod b hb with hbb | hbb
      · rcases List.mem_cons.mp hbb with hh | hh
        · right; rw [hh]; exact List.mem_map.mpr ⟨r, List.mem_cons_self _ _, rfl⟩
        · left; exact hh
      · right
        simp only [List.map_cons]
        exact List.mem_cons_of_mem _ hbb

/-- **C5.**  For every origin, a sequence of 15 unique (pairwise distinct
bodies, no idempotency keys) events arriving within one 60-second sliding
window (all within `LOOP_WINDOW_MS` of the first), processed from a fresh
guard: exactly the first 10 reach the handler and the remaining 5 are
rejected with the 429 loop-breaker status (one trip, four pause
rejections); the armed pause timer is `t₁₁ + 90 s`; while that cooldown is
active every further unique event from the origin is rejected with 429, and
at the first unique event at or after the cooldown's end the breaker
releases and the counter resets (the window having elapsed without
re-tripping). -/
theorem loop_breaker (source : String) (e1 : MwRequest) (mid : List MwRequest)
    (e11 : MwRequest) (tl : List MwRequest)
    (hmid : mid.length = 9) (htl : tl.length = 4)
    (hidem : ∀ r ∈ e1 :: mid ++ e11 :: tl, r.idemKey = none)
    (hnodup : ((e1 :: mid ++ e11 :: tl).map (·.body)).Nodup)
    (hwin : ∀ r ∈ e1 :: mid ++ e11 :: tl,
      e1.now ≤ r.now ∧ r.now ≤ e1.now + LOOP_WINDOW_MS) :
    (mwRun source mwInit (e1 :: mid ++ e11 :: tl)).1 =
      List.replicate 10 .passed ++ .loopTrip :: List.replicate 4 .loopPause ∧
    lookupA (mwRun source mwInit (e1 :: mid ++ e11 :: tl)).2.counters source =
      some ⟨11, e1.now, e11.now + LOOP_PAUSE_DURATION_MS⟩ ∧
    (∀ e : MwRequest, e.idemKey = none →
      e.body ∉ (e1 :: mid ++ e11 :: tl).map (·.body) →
      ((e.now < e11.now + LOOP_PAUSE_DURATION_MS →
        (mwStep source (mwRun source mwInit (e1 :: mid ++ e11 :: tl)).2 e).1 =
          .loopPause) ∧
       (e11.now + LOOP_PAUSE_DURATION_MS ≤ e.now →
        (mwStep source (mwRun source mwInit (e1 :: mid ++ e11 :: tl)).2 e).1 =
          .passed))) := by
  -- membership shorthands
  have hmem_mid : ∀ r ∈ mid, r ∈ e1 :: mid ++ e11 :: tl := fun r hr =>
    List.mem_cons_of_mem _ (List.mem_append_left _ hr)
  have hmem_e11 : e11 ∈ e1 :: mid ++ e11 :: tl :=
    List.mem_cons_of_mem _ (List.mem_append_right _ (List.mem_cons_self _ _))
  have hmem_tl : ∀ r ∈ tl, r ∈ e1 :: mid ++ e11 :: tl := fun r hr =>
    List.mem_cons_of_mem _
      (List.mem_append_right _ (List.mem_cons_of_mem _ hr))
  -- nodup decomposition
  have hmap : (e1 :: mid ++ e11 :: tl).map (·.body) =
      e1.body :: (mid.map (·.body) ++ e11.body :: tl.map (·.body)) := by
    simp
  rw [hmap] at hnodup
  have h1nin : e1.body ∉ mid.map (·.body) ++ e11.body :: tl.map (·.body) :=
    (List.nodup_cons.mp hnodup).1
  have hrest := (List.nodup_cons.mp hnodup).2
  rw [List.nodup_append] at hrest
  obtain ⟨hmidnd, hceil, hdisj⟩ := hrest
  have he11nin_tl : e11.body ∉ tl.map (·.body) := (List.nodup_cons.mp hceil).1
  have htlnd : (tl.map (·.body)).Nodup := (List.nodup_cons.mp hceil).2
  have he11ne1 : e11.body ≠ e1.body := fun he =>
    h1nin (he ▸ List.mem_append_right _ (List.mem_cons_self _ _))
  have he11nmid : e11.body ∉ mid.map (·.body) := fun hm =>
    hdisj hm (List.mem_cons_self _ _)
  -- step 1
  have hstep1 := mwStep_first source e1 (hidem e1 (List.mem_cons_self _ _))
  set st1 : MwState :=
    ⟨[], [(⟨source, e1.body, e1.now / 5000 * 5000⟩, e1.now + FINGERPRINT_TTL_MS)],
     [(source, ⟨1, e1.now, 0⟩)]⟩ with hst1
  -- run over mid
  have hmid_run := mwRun_passes source mid st1 1 e1.now [e1.body]
    (fun r hr => hidem r (hmem_mid r hr))
    (fun r hr => (hwin r (hmem_mid r hr)).2)
    hmidnd
    (fun r hr hm => by
      simp only [List.mem_singleton] at hm
      exact h1nin (List.mem_append_left _ (List.mem_map.mpr ⟨r, hr, hm⟩)))
    (fun b hb => by
      rw [hst1] at hb
      unfold fpcBodies at hb
      simpa using hb)
    (by rw [hst1]; simp [lookupA_cons])
    (by rw [hmid]; decide)
  set st2 : MwState := (mwRun source st1 mid).2 with hst2
  obtain ⟨hres2, hidem2, hcnt2, hbod2⟩ := hmid_run
  rw [hmid] at hcnt2
  have hcnt2' : lookupA st2.counters source = some ⟨10, e1.now, 0⟩ := hcnt2
  have hbodies2 : ∀ b ∈ fpcBodies st2,
      b ∈ e1.body :: mid.map (·.body) := by
    intro b hb
    rcases hbod2 b hb with h | h
    · simp only [List.mem_singleton] at h
      rw [h]; exact List.mem_cons_self _ _
    · exact List.mem_cons_of_mem _ h
  -- the trip step on e11
  have he11fresh : lookupA (cleanupCache st2.fpc e11.now)
      ⟨source, e11.body, e11.now / 5000 * 5000⟩ = none := by
    refine lookupA_filter_none _ (lookupA_fpc_fresh (fun hm => ?_) source _)
    rcases List.mem_cons.mp (hbodies2 _ hm) with h | h
    · exact he11ne1 h
    · exact he11nmid h
  have hstep11 := mwStep2_trip source st2 e11 he11fresh ⟨10, e1.now, 0⟩ hcnt2'
    (by simp)
    (by
      have := (hwin e11 hmem_e11).2
      simp only [Counter.firstHitTime]
      omega)
    (by show (10 : Nat) + 1 > LOOP_THRESHOLD; decide)
  set st3 : MwState :=
    ⟨st2.idem,
     setA (cleanupCache st2.fpc e11.now)
       ⟨source, e11.body, e11.now / 5000 * 5000⟩
       (e11.now + FINGERPRINT_TTL_MS),
     setA st2.counters source ⟨10 + 1, e1.now, e11.now + LOOP_PAUSE_DURATION_MS⟩⟩
    with hst3
  have hcnt3 : lookupA st3.counters source =
      some ⟨11, e1.now, e11.now + LOOP_PAUSE_DURATION_MS⟩ := by
    rw [hst3]
    exact lookupA_setA_self _ _ _
  have hbodies3 : ∀ b ∈ fpcBodies st3,
      b ∈ e11.body :: e1.body :: mid.map (·.body) := by
    intro b hb
    rw [hst3] at hb
    unfold fpcBodies at hb
    simp only at hb
    rw [setA_of_lookupA_none _ he11fresh, List.map_append] at hb
    rcases List.mem_append.mp hb with hb | hb
    · exact List.mem_cons_of_mem _ (hbodies2 b (mem_fpcBodies_cleanup hb))
    · simp only [List.map_cons, List.map_nil, List.mem_singleton] at hb
      rw [hb]; exact List.mem_cons_self _ _
  -- the pause run over tl
  have htl_run := mwRun_pauses source tl st3
    ⟨11, e1.now, e11.now + LOOP_PAUSE_DURATION_MS⟩
    (e11.body :: e1.body :: mid.map (·.body))
    (fun r hr => hidem r (hmem_tl r hr))
    (fun r hr => by
      have h1 := (hwin r (hmem_tl r hr)).2
      have h2 := (hwin e11 hmem_e11).1
      simp only [Counter.pauseUntil, LOOP_WINDOW_MS, LOOP_PAUSE_DURATION_MS] at *
      omega)
    htlnd
    (fun r hr hm => by
      rcases List.mem_cons.mp hm with h | h
      · exact he11nin_tl (h ▸ List.mem_map.mpr ⟨r, hr, rfl⟩)
      · rcases List.mem_cons.mp h with h' | h'
        · exact h1nin (h' ▸ List.mem_append_right _
            (List.mem_cons_of_mem _ (List.mem_map.mpr ⟨r, hr, rfl⟩)))
        · exact hdisj h'
            (List.mem_cons_of_mem _ (List.mem_map.mpr ⟨r, hr, rfl⟩)))
    hbodies3
    hcnt3
  obtain ⟨hres4, hidem4, hcnt4, hbod4⟩ := htl_run
  -- assemble the run
  have hrunA : mwRun source mwInit (e1 :: mid ++ e11 :: tl) =
      ((.passed) :: (mwRun source st1 (mid ++ e11 :: tl)).1,
       (mwRun source st1 (mid ++ e11 :: tl)).2) := by
    simp only [mwRun, hstep1]
    rfl
  have hrunB : mwRun source st1 (mid ++ e11 :: tl) =
      ((mwRun source st1 mid).1 ++ (mwRun source st2 (e11 :: tl)).1,
       (mwRun source st2 (e11 :: tl)).2) := by
    rw [mwRun_append]
  have hrunC : mwRun source st2 (e11 :: tl) =
      ((.loopTrip) :: (mwRun source st3 tl).1, (mwRun source st3 tl).2) := by
    simp only [mwRun,
      mwStep_no_idem source st2 e11 (hidem e11 hmem_e11), hstep11]
  have hfinal : (mwRun source mwInit (e1 :: mid ++ e11 :: tl)).2 =
      (mwRun source st3 tl).2 := by
    rw [hrunA, hrunB, hrunC]
  have hresults : (mwRun source mwInit (e1 :: mid ++ e11 :: tl)).1 =
      List.replicate 10 .passed ++ .loopTrip :: List.replicate 4 .loopPause := by
    rw [hrunA]
    simp only
    rw [hrunB]
    simp only
    rw [hres2, hrunC, hmid]
    simp only
    rw [hres4, htl]
    rfl
  refine ⟨hresults, ?_, ?_⟩
  · rw [hfinal, hcnt4, hcnt3]
  · intro e hek hefresh
    rw [hmap] at hefresh
    have hefpc : lookupA (cleanupCache (mwRun source st3 tl).2.fpc e.now)
        ⟨source, e.body, e.now / 5000 * 5000⟩ = none := by
      refine lookupA_filter_none _ (lookupA_fpc_fresh (fun hm => ?_) source _)
      rcases hbod4 _ hm with h | h
      · rcases List.mem_cons.mp h with h' | h'
        · exact hefresh (h' ▸ List.mem_cons_of_mem _
            (List.mem_append_right _ (List.mem_cons_self _ _)))
        · rcases List.mem_cons.mp h' with h'' | h''
          · exact hefresh (h'' ▸ List.mem_cons_self _ _)
          · exact hefresh (List.mem_cons_of_mem _ (List.mem_append_left _ h''))
      · exact hefresh (List.mem_cons_of_mem _
          (List.mem_append_right _ (List.mem_cons_of_mem _ h)))
    have hcntfin : lookupA (mwRun source st3 tl).2.counters source =
        some ⟨11, e1.now, e11.now + LOOP_PAUSE_DURATION_MS⟩ := by
      rw [hcnt4, hcnt3]
    constructor
    · intro hlt
      rw [hfinal, mwStep_no_idem source _ e hek,
        mwStep2_pause source _ e hefpc _ hcntfin hlt]
    · intro hge
      have h2 := (hwin e11 hmem_e11).1
      rw [hfinal, mwStep_no_idem source _ e hek,
        mwStep2_reset source _ e hefpc _ hcntfin
          (by simp only [Counter.pauseUntil]; omega)
          (by
            simp only [Counter.firstHitTime, LOOP_WINDOW_MS,
              LOOP_PAUSE_DURATION_MS] at *
            omega)]

/-- Witness for C5 at a concrete 15-event burst. -/
theorem loop_breaker_witness :
    (mwRun "sheets" mwInit
      ((⟨none, "b1", 1000⟩ : MwRequest) ::
        [⟨none, "b2", 1100⟩, ⟨none, "b3", 1200⟩, ⟨none, "b4", 1300⟩,
         ⟨none, "b5", 1400⟩, ⟨none, "b6", 1500⟩, ⟨none, "b7", 1600⟩,
         ⟨none, "b8", 1700⟩, ⟨none, "b9", 1800⟩, ⟨none, "b10", 1900⟩] ++
        ⟨none, "b11", 2000⟩ ::
        [⟨none, "b12", 2100⟩, ⟨none, "b13", 2200⟩, ⟨none, "b14", 2300⟩,
         ⟨none, "b15", 2400⟩])).1 =
      List.replicate 10 .passed ++ .loopTrip :: List.replicate 4 .loopPause :=
  (loop_breaker "sheets" ⟨none, "b1", 1000⟩
    [⟨none, "b2", 1100⟩, ⟨none, "b3", 1200⟩, ⟨none, "b4", 1300⟩,
     ⟨none, "b5", 1400⟩, ⟨none, "b6", 1500⟩, ⟨none, "b7", 1600⟩,
     ⟨none, "b8", 1700⟩, ⟨none, "b9", 1800⟩, ⟨none, "b10", 1900⟩]
    ⟨none, "b11", 2000⟩
    [⟨none, "b12", 2100⟩, ⟨none, "b13", 2200⟩, ⟨none, "b14", 2300⟩,
     ⟨none, "b15", 2400⟩]
    rfl rfl (by decide) (by decide) (by decide)).1

/-! ## C1 — fingerprint determinism -/

theorem lexLe_total : ∀ (as bs : List Char),
    lexLe as bs = true ∨ lexLe bs as = true := by
  intro as
  induction as with
  | nil => intro bs; left; rfl
  | cons a as ih =>
    intro bs
    cases bs with
    | nil => right; rfl
    | cons b bs =>
      rcases lt_trichotomy a b with h | h | h
      · left; simp [lexLe, h]
      · subst h
        rcases ih bs with h' | h'
        · left; simp [lexLe, lt_irrefl, h']
        · right; simp [lexLe, lt_irrefl, h']
      · right; simp [lexLe, h]

theorem lexLe_trans : ∀ (as bs cs : List Char),
    lexLe as bs = true → lexLe bs cs = true → lexLe as cs = true := by
  intro as
  induction as with
  | nil => intro bs cs _ _; rfl
  | cons a as ih =>
    intro bs cs hab hbc
    cases bs with
    | nil => exact absurd hab (by simp [lexLe])
    | cons b bs =>
      cases cs with
      | nil => exact absurd hbc (by simp [lexLe])
      | cons c cs =>
        rcases lt_trichotomy a b with h1 | h1 | h1
        · rcases lt_trichotomy b c with h2 | h2 | h2
          · simp [lexLe, lt_trans h1 h2]
          · subst h2; simp [lexLe, h1]
          · exact absurd hbc (by simp [lexLe, lt_asymm h2, ne_of_gt h2])
        · subst h1
          have hab' : lexLe as bs = true := by
            simpa [lexLe, lt_irrefl] using hab
          rcases lt_trichotomy a c with h2 | h2 | h2
          · simp [lexLe, h2]
          · subst h2
            have hbc' : lexLe bs cs = true := by
              simpa [lexLe, lt_irrefl] using hbc
            simp [lexLe, lt_irrefl, ih bs cs hab' hbc']
          · exact absurd hbc (by simp [lexLe, lt_asymm h2, ne_of_gt h2])
        · exact absurd hab (by simp [lexLe, lt_asymm h1, ne_of_gt h1])

theorem lexLe_antisymm : ∀ (as bs : List Char),
    lexLe as bs = true → lexLe bs as = true → as = bs := by
  intro as
  induction as with
  | nil =>
    intro bs _ hba
    cases bs with
    | nil => rfl
    | cons b bs => exact absurd hba (by simp [lexLe])
  | cons a as ih =>
    intro bs hab hba
    cases bs with
    | nil => exact absurd hab (by simp [lexLe])
    | cons b bs =>
      rcases lt_trichotomy a b with h1 | h1 | h1
      · exact absurd hba (by simp [lexLe, lt_asymm h1, ne_of_gt h1])
      · subst h1
        have hab' : lexLe as bs = true := by simpa [lexLe, lt_irrefl] using hab
        have hba' : lexLe bs as = true := by simpa [lexLe, lt_irrefl] using hba
        rw [ih bs hab' hba']
      · exact absurd hab (by simp [lexLe, lt_asymm h1, ne_of_gt h1])

instance : IsTotal String keyLe := ⟨fun a b => lexLe_total a.data b.data⟩

instance : IsTrans String keyLe :=
  ⟨fun a b c hab hbc => lexLe_trans a.data b.data c.data hab hbc⟩

instance : IsAntisymm String keyLe :=
  ⟨fun a b hab hba => by
    have h := lexLe_antisymm a.data b.data hab hba
    cases a; cases b
    exact congrArg String.mk h⟩

theorem sortKeys_sorted (l : List String) : List.Sorted keyLe (sortKeys l) :=
  List.sorted_insertionSort keyLe l

theorem sortKeys_perm (l : List String) : (sortKeys l).Perm l :=
  List.perm_insertionSort keyLe l

/-- Does `calculateFingerprint` keep field `k` of `r` (non-metadata and
defined)? -/
def keepKey (r : Record) (k : String) : Bool :=
  if k ∈ metadataFields then false else (businessView r k).isSome

theorem normalizeEntry_eq (r : Record) (k : String) :
    normalizeEntry r k =
      if k ∈ metadataFields then none
      else (businessView r k).map (fun o => (k, o)) := by
  unfold normalizeEntry businessView
  split
  · rfl
  · rcases lookupA r k with _ | v
    · rfl
    · cases v <;> rfl

theorem filterMap_normalizeEntry (r : Record) : ∀ (S : List String),
    S.filterMap (normalizeEntry r) =
      (S.filter (keepKey r)).map (fun k => (k, (businessView r k).getD none)) := by
  intro S
  induction S with
  | nil => rfl
  | cons k S ih =>
    rw [List.filterMap_cons, List.filter_cons]
    by_cases hm : k ∈ metadataFields
    · have h1 : normalizeEntry r k = none := by
        rw [normalizeEntry_eq, if_pos hm]
      have h2 : keepKey r k = false := by simp [keepKey, hm]
      rw [h1, h2]
      simpa using ih
    · rcases hbv : businessView r k with _ | o
      · have h1 : normalizeEntry r k = none := by
          rw [normalizeEntry_eq, if_neg hm, hbv]; rfl
        have h2 : keepKey r k = false := by simp [keepKey, hm, hbv]
        rw [h1, h2]
        simpa using ih
      · have h1 : normalizeEntry r k = some (k, o) := by
          rw [normalizeEntry_eq, if_neg hm, hbv]; rfl
        have h2 : keepKey r k = true := by simp [keepKey, hm, hbv]
        rw [h1, h2]
        simp [ih, hbv]

theorem keepKey_mem_keys {r : Record} {k : String} (h : keepKey r k = true) :
    k ∈ r.map (·.1) := by
  unfold keepKey at h
  split at h
  · exact absurd h (by simp)
  · unfold businessView at h
    rcases hl : lookupA r k with _ | v
    · rw [hl] at h; simp at h
    · exact mem_keys_of_lookupA hl

/-- **C1.**  `calculateFingerprint` is determined by the coerced business
view of a record: two records with no-duplicate key sets whose fields
outside the metadata set `{synced_at, created_at, updated_at, source}` agree
up to canonical string coercion (`99` and `"99"` coerce to the same string,
objects to their stable JSON serialization, `null` to `null`) get the same
fingerprint, independently of the enumeration order of their keys —
in particular records differing only in metadata fields do. -/
theorem fingerprint_determinism (r₁ r₂ : Record)
    (d₁ : (r₁.map (·.1)).Nodup) (d₂ : (r₂.map (·.1)).Nodup)
    (hb : ∀ k, k ∉ metadataFields → businessView r₁ k = businessView r₂ k) :
    calculateFingerprint r₁ none = calculateFingerprint r₂ none := by
  unfold calculateFingerprint
  congr 1
  unfold normalizeRecord
  rw [show (Option.getD none (r₁.map (·.1))) = r₁.map (·.1) from rfl,
    show (Option.getD none (r₂.map (·.1))) = r₂.map (·.1) from rfl,
    filterMap_normalizeEntry r₁, filterMap_normalizeEntry r₂]
  have hkeep : ∀ k, keepKey r₁ k = keepKey r₂ k := by
    intro k
    by_cases hm : k ∈ metadataFields
    · simp [keepKey, hm]
    · simp [keepKey, hm, hb k hm]
  have hnd₁ : ((sortKeys (r₁.map (·.1))).filter (keepKey r₁)).Nodup :=
    ((sortKeys_perm _).nodup_iff.mpr d₁).filter _
  have hnd₂ : ((sortKeys (r₂.map (·.1))).filter (keepKey r₂)).Nodup :=
    ((sortKeys_perm _).nodup_iff.mpr d₂).filter _
  have hfilter : (sortKeys (r₁.map (·.1))).filter (keepKey r₁) =
      (sortKeys (r₂.map (·.1))).filter (keepKey r₂) := by
    apply List.eq_of_perm_of_sorted (r := keyLe)
    · rw [List.perm_ext_iff_of_nodup hnd₁ hnd₂]
      intro k
      rw [List.mem_filter, List.mem_filter, (sortKeys_perm _).mem_iff,
        (sortKeys_perm _).mem_iff]
      constructor
      · rintro ⟨_, hk⟩
        rw [hkeep] at hk
        exact ⟨keepKey_mem_keys hk, hk⟩
      · rintro ⟨_, hk⟩
        rw [← hkeep] at hk
        exact ⟨keepKey_mem_keys hk, hk⟩
    · exact (sortKeys_sorted _).filter _
    · exact (sortKeys_sorted _).filter _
  rw [hfilter]
  apply List.map_congr_left
  intro k hk
  have hkeep₂ : keepKey r₂ k = true := (List.mem_filter.mp hk).2
  have hm : k ∉ metadataFields := by
    intro hmem
    rw [keepKey, if_pos hmem] at hkeep₂
    simp at hkeep₂
  rw [hb k hm]

/-- Witness for C1: the records `{a: 99, synced_at: "x"}` and `{a: "99"}`
(numeric vs string, extra metadata field, different key enumerations) have
equal fingerprints. -/
theorem fingerprint_determinism_witness :
    calculateFingerprint [("a", .vnum 99), ("synced_at", .vstr "x")] none =
      calculateFingerprint [("a", .vstr "99")] none :=
  fingerprint_determinism _ _ (by decide) (by decide) (by
    intro k hk
    by_cases hka : k = "a"
    · subst hka; decide
    · have hks : k ≠ "synced_at" := fun he =>
        hk (by rw [he]; decide)
      have h1 : ("a" : String) ≠ k := fun h => hka h.symm
      have h2 : ("synced_at" : String) ≠ k := fun h => hks h.symm
      simp [businessView, lookupA, List.find?, h1, h2])

/-! ## C9 — the mapping adopts only values present in the row -/

/-- The boolean coercion applied by the `is_` validation to string cells
(`"true"`/`"1"` and `"false"`/`"0"`, lower-cased and trimmed). -/
def strToBool (s : String) : Option Bool :=
  let lv := strTrim (strLower s)
  if lv == "true" || lv == "1" then some true
  else if lv == "false" || lv == "0" then some false
  else none

/-- `v` is obtainable from some cell of `row`: verbatim, by numeric
coercion (`Number(cell)`), or by boolean coercion of a string cell. -/
def cellDerived (env : JsEnv) (row : List JSVal) (v : JSVal) : Prop :=
  v = .vnull ∨ ∃ c ∈ row, v = c ∨
    (∃ n, jsNumber env c = some n ∧ v = .vnum n) ∨
    (∃ s b, c = .vstr s ∧ strToBool s = some b ∧ v = .vbool b)

theorem nullifyEmpty_some_range (c : JSVal) :
    nullifyEmpty (some c) = c ∨ nullifyEmpty (some c) = .vnull := by
  cases c with
  | vstr s =>
    by_cases hc : (s == "" || strLower s == "null") = true
    · right
      show (if (s == "" || strLower s == "null") = true then JSVal.vnull
        else JSVal.vstr s) = JSVal.vnull
      rw [if_pos hc]
    · left
      show (if (s == "" || strLower s == "null") = true then JSVal.vnull
        else JSVal.vstr s) = JSVal.vstr s
      rw [if_neg hc]
  | vnum n => left; rfl
  | vbool b => left; rfl
  | vnull => left; rfl
  | vobj j => left; rfl

theorem checkUuid_keep_or_null (key : String) (v : JSVal) :
    checkUuid key v = v ∨ checkUuid key v = .vnull := by
  unfold checkUuid
  split
  · split
    · left; rfl
    · right; rfl
  · left; rfl

theorem checkTime_keep_or_null (env : JsEnv) (key : String) (v : JSVal) :
    checkTime env key v = v ∨ checkTime env key v = .vnull := by
  unfold checkTime
  split
  · split
    · left; rfl
    · right; rfl
  · left; rfl

/-- Zeta-reduced unfolding of `checkName`. -/
theorem checkName_eq (env : JsEnv) (key : String) (v : JSVal) :
    checkName env key v =
      if truthy v && isNameKey key then
        if uuidTest (strTrim (jsString v)) || isoTest (strTrim (jsString v)) ||
            (env.dateParse (strTrim (jsString v)) &&
              strContainsChar (strTrim (jsString v)) ':') then JSVal.vnull
        else v
      else v := rfl

theorem checkName_keep_or_null (env : JsEnv) (key : String) (v : JSVal) :
    checkName env key v = v ∨ checkName env key v = .vnull := by
  rw [checkName_eq]
  split
  · split
    · right; rfl
    · left; rfl
  · left; rfl

theorem checkNumeric_range (env : JsEnv) (key : String) (v : JSVal) :
    checkNumeric env key v = v ∨ checkNumeric env key v = .vnull ∨
      (∃ n, jsNumber env v = some n ∧ checkNumeric env key v = .vnum n) := by
  unfold checkNumeric
  split
  · rcases hn : jsNumber env v with _ | n
    · right; left; rfl
    · right; right; exact ⟨n, rfl, rfl⟩
  · left; rfl

theorem checkBoolFlag_vnum (key : String) (n : Int) :
    checkBoolFlag key (.vnum n) = .vnum n ∨ checkBoolFlag key (.vnum n) = .vnull := by
  unfold checkBoolFlag
  split
  · right; rfl
  · left; rfl

/-- Zeta-reduced unfolding of `strToBool`. -/
theorem strToBool_eq (s : String) :
    strToBool s =
      (if strTrim (strLower s) == "true" || strTrim (strLower s) == "1" then
        some true
      else if strTrim (strLower s) == "false" || strTrim (strLower s) == "0" then
        some false
      else none) := rfl

/-- Unfolding of the `is_` validation on string cells. -/
theorem checkBoolFlag_vstr (key : String) (s : String)
    (hbk : isBoolFlagKey key = true) :
    checkBoolFlag key (.vstr s) =
      (if strTrim (strLower s) == "true" || strTrim (strLower s) == "1" then
        JSVal.vbool true
      else if strTrim (strLower s) == "false" || strTrim (strLower s) == "0" then
        JSVal.vbool false
      else JSVal.vnull) := by
  simp only [checkBoolFlag, hbk, if_true]

theorem checkBoolFlag_range (key : String) (v : JSVal) :
    checkBoolFlag key v = v ∨ checkBoolFlag key v = .vnull ∨
      (∃ s b, v = .vstr s ∧ strToBool s = some b ∧
        checkBoolFlag key v = .vbool b) := by
  cases hbk : isBoolFlagKey key with
  | false => left; simp [checkBoolFlag, hbk]
  | true =>
    cases v with
    | vstr s =>
      by_cases hc1 : (strTrim (strLower s) == "true" ||
          strTrim (strLower s) == "1") = true
      · right; right
        refine ⟨s, true, rfl, ?_, ?_⟩
        · rw [strToBool_eq, if_pos hc1]
        · rw [checkBoolFlag_vstr key s hbk, if_pos hc1]
      · by_cases hc2 : (strTrim (strLower s) == "false" ||
            strTrim (strLower s) == "0") = true
        · right; right
          refine ⟨s, false, rfl, ?_, ?_⟩
          · rw [strToBool_eq, if_neg hc1, if_pos hc2]
          · rw [checkBoolFlag_vstr key s hbk, if_neg hc1, if_pos hc2]
        · right; left
          rw [checkBoolFlag_vstr key s hbk, if_neg hc1, if_neg hc2]
    | vbool b => left; simp [checkBoolFlag, hbk]
    | vnull => right; left; simp [checkBoolFlag, hbk]
    | vnum n => right; left; simp [checkBoolFlag, hbk]
    | vobj j => right; left; simp [checkBoolFlag, hbk]

/-- The whole cell pipeline returns `null`, the cell itself, its numeric
coercion, or a boolean coerced from a string cell. -/
theorem mapCellValue_range (env : JsEnv) (key : String) (c : JSVal) :
    mapCellValue env key (some c) = .vnull ∨
    mapCellValue env key (some c) = c ∨
    (∃ n, jsNumber env c = some n ∧ mapCellValue env key (some c) = .vnum n) ∨
    (∃ s b, c = .vstr s ∧ strToBool s = some b ∧
      mapCellValue env key (some c) = .vbool b) := by
  unfold mapCellValue
  rcases nullifyEmpty_some_range c with h0 | h0 <;> rw [h0]
  case inr =>
    rw [checkUuid_vnull, checkTime_vnull, checkName_vnull, checkNumeric_vnull,
      checkBoolFlag_vnull]
    exact Or.inl rfl
  rcases checkUuid_keep_or_null key c with h1 | h1 <;> rw [h1]
  case inr =>
    rw [checkTime_vnull, checkName_vnull, checkNumeric_vnull, checkBoolFlag_vnull]
    exact Or.inl rfl
  rcases checkTime_keep_or_null env key c with h2 | h2 <;> rw [h2]
  case inr =>
    rw [checkName_vnull, checkNumeric_vnull, checkBoolFlag_vnull]
    exact Or.inl rfl
  rcases checkName_keep_or_null env key c with h3 | h3 <;> rw [h3]
  case inr =>
    rw [checkNumeric_vnull, checkBoolFlag_vnull]
    exact Or.inl rfl
  rcases checkNumeric_range env key c with h4 | h4 | ⟨n, hn, h4⟩ <;> rw [h4]
  case inr.inl =>
    rw [checkBoolFlag_vnull]
    exact Or.inl rfl
  · rcases checkBoolFlag_range key c with h5 | h5 | ⟨s, b, hs, hb, h5⟩
    · exact Or.inr (Or.inl h5)
    · exact Or.inl h5
    · exact Or.inr (Or.inr (Or.inr ⟨s, b, hs, hb, h5⟩))
  · rcases checkBoolFlag_vnum key n with h5 | h5
    · exact Or.inr (Or.inr (Or.inl ⟨n, hn, h5⟩))
    · exact Or.inl h5

/-- Zeta-reduced unfolding of `computeRowId`. -/
theorem computeRowId_eq (headers : List String) (row : List JSVal) :
    computeRowId headers row =
      (if (match (headers.findIdx? fun h => !(h == "") && normKey h == "id").bind
            (fun i => row.get? i) with
          | some v => truthy v && uuidTest (strTrim (jsString v))
          | none => false) = true then
        (headers.findIdx? fun h => !(h == "") && normKey h == "id").bind
          (fun i => row.get? i)
      else
        match row.find? (fun v => truthy v && uuidTest (strTrim (jsString v))) with
        | some v => some v
        | none =>
          (headers.findIdx? fun h => !(h == "") && normKey h == "id").bind
            (fun i => row.get? i)) := rfl

/-- The recovered row id is `null`/`undefined` or one of the row's cells. -/
theorem computeRowId_range (headers : List String) (row : List JSVal) :
    computeRowId headers row = none ∨
      ∃ c ∈ row, computeRowId headers row = some c := by
  have hr0 : ((headers.findIdx? fun h => !(h == "") && normKey h == "id").bind
      (fun i => row.get? i) = none) ∨
      ∃ c ∈ row, (headers.findIdx? fun h => !(h == "") && normKey h == "id").bind
        (fun i => row.get? i) = some c := by
    rcases hidx : headers.findIdx? fun h => !(h == "") && normKey h == "id" with _ | i
    · left; rfl
    · rcases hget : row.get? i with _ | c
      · left; simpa using hget
      · right; exact ⟨c, List.get?_mem hget, by simpa using hget⟩
  rw [computeRowId_eq]
  split
  · rcases hr0 with h | ⟨c, hc, h⟩
    · left; exact h
    · right; exact ⟨c, hc, h⟩
  · rcases hfind : row.find? (fun v => truthy v && uuidTest (strTrim (jsString v)))
        with _ | c
    · rcases hr0 with h | ⟨c, hc, h⟩
      · left; exact h
      · right; exact ⟨c, hc, h⟩
    · right; exact ⟨c, List.mem_of_find?_eq_some hfind, rfl⟩

/-- The primary mapping only produces derived values. -/
theorem primaryMapAux_derived (env : JsEnv) (rowId : Option JSVal)
    (row : List JSVal)
    (hrid : rowId = none ∨ ∃ c ∈ row, rowId = some c) :
    ∀ (hs : List String) (i : Nat) (acc : Record),
      (∀ p ∈ acc, cellDerived env row p.2) →
      ∀ p ∈ primaryMapAux env rowId row hs i acc, cellDerived env row p.2 := by
  intro hs
  induction hs with
  | nil => intro i acc hacc p hp; exact hacc p hp
  | cons h hs ih =>
    intro i acc hacc p hp
    rw [primaryMapAux_cons] at hp
    refine ih (i + 1) _ ?_ p hp
    intro q hq
    by_cases hh : (h == "") = true
    · rw [if_pos hh] at hq; exact hacc q hq
    · rw [if_neg hh] at hq
      rcases setA_values hq with hq' | hq'
      · exact hacc q hq'
      · rw [hq']
        by_cases hid : (normKey h == "id") = true
        · rw [if_pos hid]
          rcases hrid with hr | ⟨c, hc, hr⟩
          · rw [hr]
            left
            exact mapCellValue_nullish env _ none rfl
          · rw [hr]
            rcases mapCellValue_range env (normKey h) c with h5 | h5 | h5 | h5
            · left; exact h5
            · right; exact ⟨c, hc, Or.inl h5⟩
            · right; exact ⟨c, hc, Or.inr (Or.inl h5)⟩
            · right; exact ⟨c, hc, Or.inr (Or.inr h5)⟩
        · rw [if_neg hid]
          rcases hget : row.get? i with _ | c
          · left; exact mapCellValue_nullish env _ none rfl
          · rcases mapCellValue_range env (normKey h) c with h5 | h5 | h5 | h5
            · left; exact h5
            · right; exact ⟨c, List.get?_mem hget, Or.inl h5⟩
            · right; exact ⟨c, List.get?_mem hget, Or.inr (Or.inl h5)⟩
            · right; exact ⟨c, List.get?_mem hget, Or.inr (Or.inr h5)⟩

/-- A price candidate has a positive numeric coercion. -/
theorem priceCandOk_spec (env : JsEnv) (c : JSVal)
    (h : priceCandOk env c = true) :
    ∃ n, jsNumber env c = some n ∧ 0 < n := by
  cases c with
  | vnull => simp [priceCandOk] at h
  | vbool b => simp [priceCandOk] at h
  | vstr s =>
    rw [show priceCandOk env (.vstr s) =
      (if s == "" then false
       else if strLower s == "true" || strLower s == "false" then false
       else match env.numParse s with
         | some n => decide (n > 0)
         | none => false) from rfl] at h
    split at h
    · simp at h
    · split at h
      · simp at h
      · rcases hn : env.numParse s with _ | n
        · rw [hn] at h; simp at h
        · rw [hn] at h
          simp only [gt_iff_lt, decide_eq_true_eq] at h
          exact ⟨n, hn, h⟩
  | vnum n =>
    rw [show priceCandOk env (.vnum n) =
      (if strLower (jsString (.vnum n)) == "true" ||
          strLower (jsString (.vnum n)) == "false" then false
       else match jsNumber env (.vnum n) with
         | some m => decide (m > 0)
         | none => false) from rfl] at h
    split at h
    · simp at h
    · simp only [jsNumber, gt_iff_lt, decide_eq_true_eq] at h
      exact ⟨n, rfl, h⟩
  | vobj j =>
    rw [show priceCandOk env (.vobj j) =
      (if strLower (jsString (.vobj j)) == "true" ||
          strLower (jsString (.vobj j)) == "false" then false
       else match jsNumber env (.vobj j) with
         | some m => decide (m > 0)
         | none => false) from rfl] at h
    split at h
    · simp at h
    · simp [jsNumber] at h

/-- The three recovery passes only adopt derived values. -/
theorem recovery_derived (env : JsEnv) (row : List JSVal)
    (rowId : Option JSVal) (acc : Record)
    (hacc : ∀ p ∈ acc, cellDerived env row p.2) :
    ∀ p ∈ recoverCategoryId (recoverPrice env (recoverName env acc row) row)
      row rowId, cellDerived env row p.2 := by
  have hname : ∀ p ∈ recoverName env acc row, cellDerived env row p.2 := by
    intro p hp
    unfold recoverName at hp
    split at hp
    · exact hacc p hp
    · rcases hfind : row.find? (nameCandOk env) with _ | c
      · rw [hfind] at hp; exact hacc p hp
      · rw [hfind] at hp
        rcases setA_values hp with h | h
        · exact hacc p h
        · right; exact ⟨c, List.mem_of_find?_eq_some hfind, Or.inl h⟩
  have hprice : ∀ p ∈ recoverPrice env (recoverName env acc row) row,
      cellDerived env row p.2 := by
    intro p hp
    rw [show recoverPrice env (recoverName env acc row) row =
        (if !(truthy ((lookupA (recoverName env acc row) "price").getD .vnull)) &&
            !((lookupA (recoverName env acc row) "price") == some (.vnum 0)) then
          match row.find? (priceCandOk env) with
          | some c => setA (recoverName env acc row) "price"
              (.vnum ((jsNumber env c).getD 0))
          | none => recoverName env acc row
        else recoverName env acc row) from rfl] at hp
    split at hp
    · rcases hfind : row.find? (priceCandOk env) with _ | c
      · rw [hfind] at hp; exact hname p hp
      · rw [hfind] at hp
        rcases setA_values hp with h | h
        · exact hname p h
        · obtain ⟨n, hn, _⟩ := priceCandOk_spec env c (List.find?_some hfind)
          right
          refine ⟨c, List.mem_of_find?_eq_some hfind, Or.inr (Or.inl ⟨n, hn, ?_⟩)⟩
          rw [h, hn]
          rfl
    · exact hname p hp
  intro p hp
  unfold recoverCategoryId at hp
  split at hp
  · exact hprice p hp
  · rcases hfind : row.find? (catCandOk rowId) with _ | c
    · rw [hfind] at hp; exact hprice p hp
    · rw [hfind] at hp
      rcases setA_values hp with h | h
      · exact hprice p h
      · right; exact ⟨c, List.mem_of_find?_eq_some hfind, Or.inl h⟩

/-- **C9.**  Every non-null field value of the record produced by
`mapSheetsToSupabase` is a value present in some cell of the input row,
possibly type-coerced to a number (`Number(cell)`) or to a boolean
(from a `"true"/"1"/"false"/"0"` string cell); in particular the recovery
pass never fabricates data not present somewhere in the row. -/
theorem recovery_never_invents (env : JsEnv) (row : List JSVal)
    (headers : List String) (k : String) (v : JSVal)
    (hv : lookupA (mapSheetsToSupabase env row headers) k = some v)
    (hnn : v ≠ .vnull) :
    ∃ c ∈ row, v = c ∨ (∃ n, jsNumber env c = some n ∧ v = .vnum n) ∨
      (∃ s b, c = .vstr s ∧ strToBool s = some b ∧ v = .vbool b) := by
  have hmem := lookupA_isSome_mem hv
  have hall : ∀ p ∈ mapSheetsToSupabase env row headers,
      cellDerived env row p.2 := by
    unfold mapSheetsToSupabase
    exact recovery_derived env row _ _
      (primaryMapAux_derived env _ row (computeRowId_range headers row)
        headers 0 [] (by intro p hp; simp at hp))
  rcases hall (k, v) hmem with h | h
  · exact absurd h hnn
  · exact h

/-! ## C3 — row/record round trip -/

/-- A cell that the empty/`null` normalization leaves alone (not empty, not
a case-insensitive `"null"` string, not JS `null`, not an object — objects
change type when re-rendered). -/
def notNullish : JSVal → Bool
  | .vstr s => !(s == "") && !(strLower s == "null")
  | .vnull => false
  | .vobj _ => false
  | .vnum _ => true
  | .vbool _ => true

/-- A UUID-shaped string value (what survives the id validation). -/
def isUuidStrVal : JSVal → Bool
  | .vstr s => uuidTest (strTrim s)
  | _ => false

/-- The rejection condition of the name/title validation. -/
def nameRejected (env : JsEnv) (s : String) : Bool :=
  uuidTest s || isoTest s || (env.dateParse s && strContainsChar s ':')

/-- A JS number value. -/
def isNumVal : JSVal → Bool
  | .vnum _ => true
  | _ => false

/-- A JS boolean value. -/
def isBoolVal : JSVal → Bool
  | .vbool _ => true
  | _ => false

/-- The cell `c` satisfies the field type constraints of the normalizer for
column key `key`: id columns hold well-formed UUID strings, time columns
hold date-parseable values, name columns hold truthy non-reserved-shaped
values, the numeric fields hold actual JS numbers, boolean-flag columns
hold actual JS booleans, and no cell is empty, `"null"`, `null` or an
object.  Exactly the cells the normalization pipeline maps to themselves. -/
def cellOk (env : JsEnv) (key : String) (c : JSVal) : Bool :=
  notNullish c &&
  (!(isIdKey key) || isUuidStrVal c) &&
  (!(isTimeKey key) || !(truthy c) || isActuallyADate env (strTrim (jsString c))) &&
  (!(isNameKey key) || (truthy c && !(nameRejected env (strTrim (jsString c))))) &&
  (!(numericFields.contains key) || isNumVal c) &&
  (!(isBoolFlagKey key) || isBoolVal c)

theorem nullifyEmpty_of_notNullish {c : JSVal} (h : notNullish c = true) :
    nullifyEmpty (some c) = c := by
  cases c with
  | vstr s =>
    simp only [notNullish, Bool.and_eq_true, Bool.not_eq_true'] at h
    show (if (s == "" || strLower s == "null") = true then JSVal.vnull
      else JSVal.vstr s) = JSVal.vstr s
    rw [if_neg (by simp [h.1, h.2])]
  | vnum n => rfl
  | vbool b => rfl
  | vnull => simp [notNullish] at h
  | vobj j => simp [notNullish] at h

theorem checkUuid_preserved (key : String) {c : JSVal}
    (h : (!(isIdKey key) || isUuidStrVal c) = true) : checkUuid key c = c := by
  unfold checkUuid
  by_cases hik : isIdKey key = true
  · rw [hik] at h
    simp only [Bool.not_true, Bool.false_or] at h
    cases c with
    | vstr s =>
      simp only [isUuidStrVal] at h
      split
      · rw [if_pos (by simpa [jsString] using h)]
      · rfl
    | vnum n => simp [isUuidStrVal] at h
    | vbool b => simp [isUuidStrVal] at h
    | vnull => simp [isUuidStrVal] at h
    | vobj j => simp [isUuidStrVal] at h
  · rw [if_neg (by simp [hik])]

theorem checkTime_preserved (env : JsEnv) (key : String) {c : JSVal}
    (h : (!(isTimeKey key) || !(truthy c) ||
      isActuallyADate env (strTrim (jsString c))) = true) :
    checkTime env key c = c := by
  unfold checkTime
  by_cases hcond : (truthy c && isTimeKey key) = true
  · rw [if_pos hcond]
    simp only [Bool.and_eq_true] at hcond
    rw [hcond.2, hcond.1] at h
    simp only [Bool.not_true, Bool.false_or] at h
    rw [if_pos h]
  · rw [if_neg hcond]

theorem checkName_preserved (env : JsEnv) (key : String) {c : JSVal}
    (h : (!(isNameKey key) ||
      (truthy c && !(nameRejected env (strTrim (jsString c))))) = true) :
    checkName env key c = c := by
  rw [checkName_eq]
  by_cases hcond : (truthy c && isNameKey key) = true
  · rw [if_pos hcond]
    simp only [Bool.and_eq_true] at hcond
    rw [hcond.2] at h
    simp only [Bool.not_true, Bool.false_or, Bool.and_eq_true,
      Bool.not_eq_true'] at h
    rw [if_neg (by simpa [nameRejected] using h.2)]
  · rw [if_neg hcond]

theorem checkNumeric_preserved (env : JsEnv) (key : String) {c : JSVal}
    (h : (!(numericFields.contains key) || isNumVal c) = true) :
    checkNumeric env key c = c := by
  unfold checkNumeric
  by_cases hcond : (truthy c && numericFields.contains key) = true
  · rw [if_pos hcond]
    simp only [Bool.and_eq_true] at hcond
    rw [hcond.2] at h
    simp only [Bool.not_true, Bool.false_or] at h
    cases c with
    | vnum n => rfl
    | vstr s => simp [isNumVal] at h
    | vbool b => simp [isNumVal] at h
    | vnull => simp [isNumVal] at h
    | vobj j => simp [isNumVal] at h
  · rw [if_neg hcond]

theorem checkBoolFlag_preserved (key : String) {c : JSVal}
    (h : (!(isBoolFlagKey key) || isBoolVal c) = true) :
    checkBoolFlag key c = c := by
  unfold checkBoolFlag
  by_cases hbk : isBoolFlagKey key = true
  · rw [hbk] at h
    simp only [Bool.not_true, Bool.false_or] at h
    rw [if_pos hbk]
    cases c with
    | vbool b => rfl
    | vstr s => simp [isBoolVal] at h
    | vnum n => simp [isBoolVal] at h
    | vnull => simp [isBoolVal] at h
    | vobj j => simp [isBoolVal] at h
  · rw [if_neg hbk]

/-- A constraint-satisfying cell passes through the whole type-safety
pipeline unchanged. -/
theorem mapCellValue_preserved (env : JsEnv) (key : String) {c : JSVal}
    (h : cellOk env key c = true) : mapCellValue env key (some c) = c := by
  simp only [cellOk, Bool.and_eq_true] at h
  obtain ⟨⟨⟨⟨⟨h1, h2⟩, h3⟩, h4⟩, h5⟩, h6⟩ := h
  unfold mapCellValue
  rw [nullifyEmpty_of_notNullish h1, checkUuid_preserved key h2,
    checkTime_preserved env key h3, checkName_preserved env key h4,
    checkNumeric_preserved env key h5, checkBoolFlag_preserved key h6]

/-- A constraint-satisfying cell is never object-typed, so it re-renders
verbatim. -/
theorem cellOk_not_obj {env : JsEnv} {key : String} {c : JSVal}
    (h : cellOk env key c = true) : isObjectTyped c = false := by
  simp only [cellOk, Bool.and_eq_true] at h
  cases c with
  | vnull => simp [notNullish] at h
  | vobj j => simp [notNullish] at h
  | vstr s => rfl
  | vnum n => rfl
  | vbool b => rfl

theorem findIdx?_some_spec {α : Type _} (p : α → Bool) :
    ∀ (l : List α) (i j : Nat), List.findIdx? p l i = some j →
      i ≤ j ∧ ∃ x, l.get? (j - i) = some x ∧ p x = true := by
  intro l
  induction l with
  | nil => intro i j h; simp [List.findIdx?] at h
  | cons a l ih =>
    intro i j h
    rw [List.findIdx?_cons] at h
    by_cases hp : p a = true
    · rw [if_pos hp] at h
      injection h with h
      subst h
      exact ⟨le_refl _, a, by simp, hp⟩
    · rw [if_neg hp] at h
      obtain ⟨hij, x, hx, hpx⟩ := ih (i + 1) j h
      refine ⟨by omega, x, ?_, hpx⟩
      have he : j - i = (j - (i + 1)) + 1 := by omega
      rw [he, List.get?_cons_succ]
      exact hx

theorem mem_zip_of_get? {α β : Type _} :
    ∀ (k : Nat) (hs : List α) (cs : List β) (h : α) (c : β),
      hs.get? k = some h → cs.get? k = some c → (h, c) ∈ hs.zip cs := by
  intro k
  induction k with
  | zero =>
    intro hs cs h c hh hc
    cases hs with
    | nil => simp at hh
    | cons h0 hs =>
      cases cs with
      | nil => simp at hc
      | cons c0 cs =>
        simp only [List.get?] at hh hc
        injection hh with hh
        injection hc with hc
        rw [hh, hc]
        exact List.mem_cons_self _ _
  | succ k ih =>
    intro hs cs h c hh hc
    cases hs with
    | nil => simp at hh
    | cons h0 hs =>
      cases cs with
      | nil => simp at hc
      | cons c0 cs =>
        rw [List.get?_cons_succ] at hh hc
        exact List.mem_cons_of_mem _ (ih hs cs h c hh hc)

theorem lookupA_zip_get {α β : Type _} [DecidableEq α] :
    ∀ (k : Nat) (hs : List α) (cs : List β) (h : α) (c : β), hs.Nodup →
      hs.get? k = some h → cs.get? k = some c →
      lookupA (hs.zip cs) h = some c := by
  intro k
  induction k with
  | zero =>
    intro hs cs h c _ hh hc
    cases hs with
    | nil => simp at hh
    | cons h0 hs =>
      cases cs with
      | nil => simp at hc
      | cons c0 cs =>
        simp only [List.get?] at hh hc
        injection hh with hh
        injection hc with hc
        rw [hh, hc, List.zip_cons_cons, lookupA_cons, if_pos rfl]
  | succ k ih =>
    intro hs cs h c hnd hh hc
    cases hs with
    | nil => simp at hh
    | cons h0 hs =>
      cases cs with
      | nil => simp at hc
      | cons c0 cs =>
        rw [List.get?_cons_succ] at hh hc
        have hne : h0 ≠ h := by
          intro he
          exact (List.nodup_cons.mp hnd).1
            (he ▸ List.get?_mem hh)
        rw [List.zip_cons_cons, lookupA_cons, if_neg hne]
        exact ih hs cs h c (List.nodup_cons.mp hnd).2 hh hc

/-- The primary mapping over distinct non-empty headers aligned with the
row builds exactly the zip of headers with pipeline-processed cells. -/
theorem primaryMapAux_zip (env : JsEnv) (rowId : Option JSVal)
    (row : List JSVal) :
    ∀ (hs : List String) (cs : List JSVal) (i : Nat) (acc : Record),
      row.drop i = cs → hs.length = cs.length →
      (∀ h ∈ hs, h ≠ "") → hs.Nodup →
      (∀ h ∈ hs, lookupA acc h = none) →
      primaryMapAux env rowId row hs i acc =
        acc ++ (hs.zip cs).map (fun p =>
          (p.1, mapCellValue env (normKey p.1)
            (if normKey p.1 == "id" then rowId else some p.2))) := by
  intro hs
  induction hs with
  | nil =>
    intro cs i acc _ _ _ _ _
    simp [primaryMapAux]
  | cons h hs ih =>
    intro cs i acc hdrop hlen hne hnd hfresh
    cases cs with
    | nil => simp at hlen
    | cons c cs' =>
      have hget : row.get? i = some c := by
        rw [List.get?_eq_getElem?]
        have h0 := List.getElem?_drop row i 0
        rw [Nat.add_zero, hdrop] at h0
        rw [← h0]
        simp
      have hdrop' : row.drop (i + 1) = cs' := by
        have h1 := List.drop_drop 1 i row
        rw [hdrop] at h1
        simpa using h1.symm
      have hne_h : h ≠ "" := hne h (List.mem_cons_self _ _)
      have hfresh_h := hfresh h (List.mem_cons_self _ _)
      rw [primaryMapAux_cons,
        show (h == "") = false from beq_eq_false_iff_ne.mpr hne_h]
      simp only [Bool.false_eq_true, if_false]
      rw [setA_of_lookupA_none _ hfresh_h]
      rw [ih cs' (i + 1) _ hdrop' (by simpa using hlen)
        (fun h' hh => hne h' (List.mem_cons_of_mem _ hh))
        (List.nodup_cons.mp hnd).2
        (fun h' hh => by
          rw [lookupA_append_right _ (hfresh h' (List.mem_cons_of_mem _ hh)),
            lookupA_cons,
            if_neg (show h ≠ h' from fun he =>
              (List.nodup_cons.mp hnd).1 (by rw [he]; exact hh))]
          rfl)]
      rw [hget, List.zip_cons_cons, List.map_cons, List.append_assoc]
      rfl

/-- The coerced facts provided by `cellOk` at an id-keyed column. -/
theorem cellOk_id {env : JsEnv} {key : String} {c : JSVal}
    (h : cellOk env key c = true) (hk : isIdKey key = true) :
    truthy c = true ∧ uuidTest (strTrim (jsString c)) = true := by
  simp only [cellOk, Bool.and_eq_true] at h
  obtain ⟨⟨⟨⟨⟨h1, h2⟩, _⟩, _⟩, _⟩, _⟩ := h
  rw [hk] at h2
  simp only [Bool.not_true, Bool.false_or] at h2
  cases c with
  | vstr s =>
    simp only [isUuidStrVal] at h2
    refine ⟨?_, by simpa [jsString] using h2⟩
    simp only [notNullish, Bool.and_eq_true, Bool.not_eq_true'] at h1
    simp [truthy, h1.1]
  | vnum n => simp [isUuidStrVal] at h2
  | vbool b => simp [isUuidStrVal] at h2
  | vnull => simp [isUuidStrVal] at h2
  | vobj j => simp [isUuidStrVal] at h2

/-- When a unique id column holds a constraint-satisfying cell, the greedy
id recovery returns exactly that cell. -/
theorem computeRowId_valid (env : JsEnv) (headers : List String)
    (row : List JSVal) (hlen : row.length = headers.length)
    (hne : ∀ h ∈ headers, h ≠ "")
    (hnd : (headers.map normKey).Nodup)
    (hok : ∀ p ∈ headers.zip row, cellOk env (normKey p.1) p.2 = true)
    (k : Nat) (h : String) (c : JSVal)
    (hh : headers.get? k = some h) (hc : row.get? k = some c)
    (hid : normKey h = "id") :
    computeRowId headers row = some c := by
  have hnn : headers.findIdx? (fun h' => !(h' == "") && (normKey h' == "id")) ≠
      none := by
    intro hnone
    have := (List.findIdx?_eq_none_iff.mp hnone) h (List.get?_mem hh)
    simp [beq_eq_false_iff_ne.mpr (hne h (List.get?_mem hh)), hid] at this
  rcases hfi : headers.findIdx? (fun h' => !(h' == "") && (normKey h' == "id"))
      with _ | j
  · exact absurd hfi hnn
  · obtain ⟨_, hj, hjx, hjp⟩ := findIdx?_some_spec _ headers 0 j hfi
    rw [Nat.sub_zero] at hjx
    have hjid : normKey hj = "id" := by
      simp only [Bool.and_eq_true, beq_iff_eq] at hjp
      exact hjp.2
    have hjk : j = k := by
      have hmapj : (headers.map normKey).get? j = some "id" := by
        rw [List.get?_map, hjx]
        simp [hjid]
      have hmapk : (headers.map normKey).get? k = some "id" := by
        rw [List.get?_map, hh]
        simp [hid]
      have hjlt : j < (headers.map normKey).length := by
        rw [List.length_map]
        exact (List.get?_eq_some.mp hjx).1
      exact List.get?_inj hjlt hnd (by rw [hmapj, hmapk])
    subst hjk
    have hjc : row.get? j = some c := hc
    have hcell : cellOk env (normKey hj) c = true := by
      have hcell' := hok (hj, c) (mem_zip_of_get? j headers row hj c hjx hjc)
      exact hcell'
    obtain ⟨htr, huu⟩ := cellOk_id hcell (by simp [isIdKey, hjid])
    rw [computeRowId_eq, hfi]
    have hbind : (some j).bind (fun i => row.get? i) = some c := by
      simpa using hjc
    rw [if_pos (by rw [hbind]; simp [htr, huu])]
    exact hbind

theorem lookupA_zip_map {α β γ : Type _} [DecidableEq α] (g : α → β → γ) :
    ∀ (k : Nat) (hs : List α) (cs : List β) (h : α) (c : β), hs.Nodup →
      hs.get? k = some h → cs.get? k = some c →
      lookupA ((hs.zip cs).map (fun p => (p.1, g p.1 p.2))) h = some (g h c) := by
  intro k
  induction k with
  | zero =>
    intro hs cs h c _ hh hc
    cases hs with
    | nil => simp at hh
    | cons h0 hs =>
      cases cs with
      | nil => simp at hc
      | cons c0 cs =>
        simp only [List.get?] at hh hc
        injection hh with hh
        injection hc with hc
        rw [hh, hc, List.zip_cons_cons, List.map_cons, lookupA_cons, if_pos rfl]
  | succ k ih =>
    intro hs cs h c hnd hh hc
    cases hs with
    | nil => simp at hh
    | cons h0 hs =>
      cases cs with
      | nil => simp at hc
      | cons c0 cs =>
        rw [List.get?_cons_succ] at hh hc
        have hne : h0 ≠ h := by
          intro he
          exact (List.nodup_cons.mp hnd).1 (he ▸ List.get?_mem hh)
        rw [List.zip_cons_cons, List.map_cons, lookupA_cons, if_neg hne]
        exact ih hs cs h c (List.nodup_cons.mp hnd).2 hh hc

/-- Name columns: the constraint forces a truthy value. -/
theorem cellOk_name {env : JsEnv} {key : String} {c : JSVal}
    (h : cellOk env key c = true) (hk : isNameKey key = true) :
    truthy c = true := by
  simp only [cellOk, Bool.and_eq_true] at h
  obtain ⟨⟨⟨⟨⟨_, _⟩, _⟩, h4⟩, _⟩, _⟩ := h
  rw [hk] at h4
  simp only [Bool.not_true, Bool.false_or, Bool.and_eq_true] at h4
  exact h4.1

/-- Numeric columns: the constraint forces an actual number value. -/
theorem cellOk_num {env : JsEnv} {key : String} {c : JSVal}
    (h : cellOk env key c = true) (hk : numericFields.contains key = true) :
    ∃ n, c = .vnum n := by
  simp only [cellOk, Bool.and_eq_true] at h
  obtain ⟨⟨⟨⟨⟨_, _⟩, _⟩, _⟩, h5⟩, _⟩ := h
  rw [hk] at h5
  simp only [Bool.not_true, Bool.false_or] at h5
  cases c with
  | vnum n => exact ⟨n, rfl⟩
  | vstr s => simp [isNumVal] at h5
  | vbool b => simp [isNumVal] at h5
  | vnull => simp [isNumVal] at h5
  | vobj j => simp [isNumVal] at h5

/-- The name recovery never alters a key already holding a suitable value,
and only ever touches the key `"name"`. -/
theorem recoverName_keeps (env : JsEnv) (acc : Record) (row : List JSVal)
    (h : String) (v : JSVal) (hv : lookupA acc h = some v)
    (hname : h = "name" → truthy v = true) :
    lookupA (recoverName env acc row) h = some v := by
  unfold recoverName
  by_cases hg : truthy ((lookupA acc "name").getD .vnull) = true
  · rw [if_pos hg]
    exact hv
  · rw [if_neg hg]
    rcases hf : row.find? (nameCandOk env) with _ | cand
    · exact hv
    · by_cases hh : h = "name"
      · subst hh
        rw [hv] at hg
        exact absurd (hname rfl) (by simpa using hg)
      · show lookupA (setA acc "name" cand) h = some v
        rw [lookupA_setA_ne _ _ hh]
        exact hv

/-- The price recovery never alters a key already holding a suitable value:
an existing truthy price, or the literal number `0`, disables it. -/
theorem recoverPrice_keeps (env : JsEnv) (acc : Record) (row : List JSVal)
    (h : String) (v : JSVal) (hv : lookupA acc h = some v)
    (hp : h = "price" → truthy v = true ∨ v = .vnum 0) :
    lookupA (recoverPrice env acc row) h = some v := by
  rw [show recoverPrice env acc row =
      (if !truthy ((lookupA acc "price").getD .vnull) &&
          !(lookupA acc "price" == some (JSVal.vnum 0)) then
        match row.find? (priceCandOk env) with
        | some c => setA acc "price" (JSVal.vnum ((jsNumber env c).getD 0))
        | none => acc
      else acc) from rfl]
  by_cases hh : h = "price"
  · subst hh
    rw [hv]
    rcases hp rfl with htr | h0
    · rw [if_neg (by simp [htr])]
      exact hv
    · subst h0
      rw [if_neg (by simp)]
      exact hv
  · by_cases hg : (!truthy ((lookupA acc "price").getD .vnull) &&
        !(lookupA acc "price" == some (JSVal.vnum 0))) = true
    · rw [if_pos hg]
      rcases hf : row.find? (priceCandOk env) with _ | cand
      · exact hv
      · show lookupA (setA acc "price" _) h = some v
        rw [lookupA_setA_ne _ _ hh]
        exact hv
    · rw [if_neg hg]
      exact hv

/-- The category recovery never alters a key already holding a suitable
value, and only ever touches the key `"category_id"`. -/
theorem recoverCategoryId_keeps (acc : Record) (row : List JSVal)
    (rowId : Option JSVal) (h : String) (v : JSVal)
    (hv : lookupA acc h = some v)
    (hcat : h = "category_id" → truthy v = true) :
    lookupA (recoverCategoryId acc row rowId) h = some v := by
  unfold recoverCategoryId
  by_cases hg : truthy ((lookupA acc "category_id").getD .vnull) = true
  · rw [if_pos hg]
    exact hv
  · rw [if_neg hg]
    rcases hf : row.find? (catCandOk rowId) with _ | cand
    · exact hv
    · by_cases hh : h = "category_id"
      · subst hh
        rw [hv] at hg
        exact absurd (hcat rfl) (by simpa using hg)
      · show lookupA (setA acc "category_id" cand) h = some v
        rw [lookupA_setA_ne _ _ hh]
        exact hv

/-- Under the corrected constraints, every header's field in the produced
record holds that column's original cell verbatim. -/
theorem mapSheetsToSupabase_lookup (env : JsEnv) (headers : List String)
    (row : List JSVal) (hlen : row.length = headers.length)
    (hne : ∀ h ∈ headers, h ≠ "")
    (hnd : (headers.map normKey).Nodup)
    (hok : ∀ p ∈ headers.zip row, cellOk env (normKey p.1) p.2 = true)
    (k : Nat) (h : String) (c : JSVal)
    (hh : headers.get? k = some h) (hc : row.get? k = some c) :
    lookupA (mapSheetsToSupabase env row headers) h = some c := by
  have hndh : headers.Nodup := List.Nodup.of_map normKey hnd
  have hcell : cellOk env (normKey h) c = true :=
    hok (h, c) (mem_zip_of_get? k headers row h c hh hc)
  have hg : mapCellValue env (normKey h)
      (if normKey h == "id" then computeRowId headers row else some c) = c := by
    by_cases hid : normKey h = "id"
    · rw [if_pos (beq_iff_eq.mpr hid),
        computeRowId_valid env headers row hlen hne hnd hok k h c hh hc hid]
      exact mapCellValue_preserved env _ hcell
    · rw [show (normKey h == "id") = false from beq_eq_false_iff_ne.mpr hid]
      simp only [Bool.false_eq_true, if_false]
      exact mapCellValue_preserved env _ hcell
  have hbase : lookupA
      (primaryMapAux env (computeRowId headers row) row headers 0 []) h
      = some c := by
    rw [primaryMapAux_zip env (computeRowId headers row) row headers row 0 []
      rfl hlen.symm hne hndh (fun _ _ => rfl), List.nil_append]
    have hz := lookupA_zip_map (fun (a : String) (b : JSVal) =>
        mapCellValue env (normKey a)
          (if normKey a == "id" then computeRowId headers row else some b))
      k headers row h c hndh hh hc
    exact hz.trans (congrArg some hg)
  have hname : h = "name" → truthy c = true := by
    intro he
    subst he
    exact cellOk_name hcell (by decide)
  have hprice : h = "price" → truthy c = true ∨ c = .vnum 0 := by
    intro he
    subst he
    obtain ⟨n, rfl⟩ := cellOk_num hcell (by decide)
    by_cases hn : n = 0
    · right
      rw [hn]
    · left
      have hb : (n == 0) = false := beq_eq_false_iff_ne.mpr hn
      simp [truthy, hb]
  have hcat : h = "category_id" → truthy c = true := by
    intro he
    subst he
    exact (cellOk_id hcell (by decide)).1
  rw [show mapSheetsToSupabase env row headers =
      recoverCategoryId (recoverPrice env (recoverName env
        (primaryMapAux env (computeRowId headers row) row headers 0 []) row)
        row) row (computeRowId headers row) from rfl]
  exact recoverCategoryId_keeps _ _ _ _ _
    (recoverPrice_keeps _ _ _ _ _
      (recoverName_keeps _ _ _ _ _ hbase hname) hprice) hcat

/-- `mapSupabaseToSheets` on a non-empty header list. -/
theorem mapSupabaseToSheets_cons (record : Record) (h0 : String)
    (hs : List String) :
    mapSupabaseToSheets record (h0 :: hs) = (h0 :: hs).map (fun h =>
      match lookupA record h with
      | none => JSVal.vstr ""
      | some v => if isObjectTyped v then JSVal.vstr (jsonStringifyVal v)
        else v) := rfl

/-- **C3** (corrected): the round-trip
`mapSupabaseToSheets(mapSheetsToSupabase(row, headers), headers) = row`
holds for every row whose cells satisfy the normalizer's field type
constraints (`cellOk`: well-formed UUID strings in id columns, parseable
timestamps in time columns, truthy non-UUID/non-date text in name columns,
actual numbers in the numeric fields, actual booleans in boolean-flag
columns, and no empty/`"null"`/`null`/object cells), provided the headers
are non-empty and pairwise distinct after normalization and the row has
one cell per header.  The original claim, which also admitted the strings
`"true"`/`"false"` in boolean-flag columns, is refuted by the separate
counterexample: such cells are coerced to real booleans and do not
round-trip. -/
theorem roundtrip_fidelity (env : JsEnv) (headers : List String)
    (row : List JSVal) (hlen : row.length = headers.length)
    (hne : ∀ h ∈ headers, h ≠ "")
    (hnd : (headers.map normKey).Nodup)
    (hall : (headers.zip row).all
      (fun p => cellOk env (normKey p.1) p.2) = true) :
    mapSupabaseToSheets (mapSheetsToSupabase env row headers) headers = row := by
  have hok : ∀ p ∈ headers.zip row, cellOk env (normKey p.1) p.2 = true :=
    fun p hp => List.all_eq_true.mp hall p hp
  cases headers with
  | nil =>
    have hrow : row = [] := List.length_eq_zero.mp (by simpa using hlen)
    subst hrow
    rfl
  | cons h0 hs =>
    rw [mapSupabaseToSheets_cons]
    refine List.ext_get? (fun k => ?_)
    rw [List.get?_map]
    rcases hh : (h0 :: hs).get? k with _ | h
    · rw [Option.map_none']
      symm
      rw [List.get?_eq_none] at hh ⊢
      rw [hlen]
      exact hh
    · rcases hc : row.get? k with _ | c
      · exfalso
        rw [List.get?_eq_none] at hc
        have hk := (List.get?_eq_some.mp hh).1
        rw [hlen] at hc
        omega
      · rw [Option.map_some']
        have hcell : cellOk env (normKey h) c = true :=
          hok (h, c) (mem_zip_of_get? k (h0 :: hs) row h c hh hc)
        have hlook := mapSheetsToSupabase_lookup env (h0 :: hs) row hlen hne
          hnd hok k h c hh hc
        show some (match lookupA (mapSheetsToSupabase env row (h0 :: hs)) h
            with
          | none => JSVal.vstr ""
          | some v => if isObjectTyped v then JSVal.vstr (jsonStringifyVal v)
            else v) = some c
        rw [hlook]
        show some (if isObjectTyped c then JSVal.vstr (jsonStringifyVal c)
          else c) = some c
        rw [cellOk_not_obj hcell]
        simp

/-- Counterexample to C3 as stated: a boolean-flag column holding the
string `"true"` — explicitly admitted by the claim's constraint list — is
coerced to the boolean `true` and does not round-trip to the original
string cell. -/
theorem roundtrip_fidelity_counterexample :
    mapSheetsToSupabase witnessEnv [JSVal.vstr "true"] ["is_active"]
      = [("is_active", JSVal.vbool true)] ∧
    mapSupabaseToSheets
      (mapSheetsToSupabase witnessEnv [JSVal.vstr "true"] ["is_active"])
      ["is_active"] ≠ [JSVal.vstr "true"] := by
  decide

/-- Witness for C3: a concrete well-typed row over headers
`id`/`name`/`price` round-trips exactly. -/
theorem roundtrip_fidelity_witness :
    mapSupabaseToSheets
      (mapSheetsToSupabase witnessEnv
        [JSVal.vstr "3f2c8a1e-9b4d-4c6a-8e2f-1a5b7c9d0e3f",
          JSVal.vstr "Latte", JSVal.vnum 5]
        ["id", "name", "price"])
      ["id", "name", "price"]
      = [JSVal.vstr "3f2c8a1e-9b4d-4c6a-8e2f-1a5b7c9d0e3f",
          JSVal.vstr "Latte", JSVal.vnum 5] :=
  roundtrip_fidelity witnessEnv ["id", "name", "price"]
    [JSVal.vstr "3f2c8a1e-9b4d-4c6a-8e2f-1a5b7c9d0e3f",
      JSVal.vstr "Latte", JSVal.vnum 5]
    (by decide) (by decide) (by decide) (by decide)

/-- Witness for C9: the `name` recovered from a misaligned row is a cell of
that row. -/
theorem recovery_never_invents_witness :
    ∃ c ∈ [JSVal.vstr "hello"], JSVal.vstr "hello" = c ∨
      (∃ n, jsNumber witnessEnv c = some n ∧ JSVal.vstr "hello" = .vnum n) ∨
      (∃ s b, c = .vstr s ∧ strToBool s = some b ∧
        JSVal.vstr "hello" = .vbool b) :=
  recovery_never_invents witnessEnv [JSVal.vstr "hello"] ["note"] "name"
    (JSVal.vstr "hello") (by decide) (by decide)

end SupabaseMirror
